import Mathlib

/-!
Shallow embedding of the fg-anim-editor core (src/main.rs, src/ui.rs):
the animation data model, the undo/redo action engine, and the
spritesheet codec, together with proofs checking the specification's
claims against this embedding.

Modelling conventions:
* Rust `f32` coordinates are modelled as exact rationals (`Rat`); the
  claims under study only ever store, copy and compare these values.
* `HashMap<usize, V>` is modelled as an association list with unique
  keys by construction; `get`/`get_mut` read/modify the first matching
  entry, `insert` overwrites or appends, `remove` deletes the key.
* Rust panics (out-of-range indexing, failed `assert!`, `unwrap()` on
  `None`, `usize` underflow) are modelled as `none` of an `Option`.
* `Handle<Image>` is an opaque identity-compared handle, modelled as `Nat`.
-/

set_option maxRecDepth 8192

namespace AnimEditor

/-- 2D vector (bevy `Vec2`), with exact rational coordinates. -/
structure Vec2 where
  x : Rat
  y : Rat
deriving DecidableEq, Repr

/-- Per-frame hitbox instance (`HitboxPos`, main.rs:1080-1086). -/
structure HitboxPos where
  id : Nat
  pos : Vec2
  size : Vec2
  enabled : Bool
deriving DecidableEq, Repr

/-- Global hitbox definition (`Hitbox`, main.rs:1073-1078). -/
structure Hitbox where
  id : Nat
  desc : String
  is_hurtbox : Bool
deriving DecidableEq, Repr

/-- One animation still (`Frame`, main.rs:1034-1041). The `image` field is
an opaque asset handle compared by identity. -/
structure Frame where
  image : Nat
  offset : Vec2
  root_motion : Vec2
  delay : Nat
  hitboxes : List (Nat × HitboxPos)
deriving DecidableEq, Repr

/-- Ordered frame sequence (`Timeline`, main.rs:1069-1071). -/
structure Timeline where
  frames : List Frame
deriving DecidableEq, Repr

/-- The Data Model root (`Animation`, main.rs:1020-1023): a timeline plus
the hitbox-definition map. -/
structure Animation where
  timeline : Timeline
  hitboxes : List (Nat × Hitbox)
deriving DecidableEq, Repr

/-- `Animation::new` (main.rs:1026-1031). -/
def Animation.new : Animation := ⟨⟨[]⟩, []⟩

/-- First entry with the given key (`HashMap::get`). -/
def alGet {V : Type} : List (Nat × V) → Nat → Option V
  | [], _ => none
  | (k, v) :: rest, key => if k = key then some v else alGet rest key

/-- Update the first entry with the given key in place (`HashMap::get_mut`
followed by a field write). -/
def alModify {V : Type} : List (Nat × V) → Nat → (V → V) → List (Nat × V)
  | [], _, _ => []
  | (k, v) :: rest, key, f =>
    if k = key then (k, f v) :: rest else (k, v) :: alModify rest key f

/-- Overwrite-or-append insertion (`HashMap::insert`). -/
def alInsert {V : Type} (m : List (Nat × V)) (key : Nat) (v : V) : List (Nat × V) :=
  if (alGet m key).isSome then alModify m key (fun _ => v) else m ++ [(key, v)]

/-- Delete all entries with the given key (`HashMap::remove`; keys are
unique by construction, so at most one entry is deleted). -/
def alRemove {V : Type} (m : List (Nat × V)) (key : Nat) : List (Nat × V) :=
  m.filter (fun p => p.1 ≠ key)

/-- The reversible edit commands (`Action`, main.rs:707-755). -/
inductive Action where
  | RemoveFrame (frame : Frame) (index : Nat)
  | ChangeDelay (index : Nat) (from_ : Nat) (to_ : Nat)
  | AddFrame (image : Nat)
  | MoveSprite (frame_index : Nat) (from_ : Vec2) (to_ : Vec2)
  | SetMotionOffset (frame_index : Nat) (from_ : Vec2) (to_ : Vec2)
  | SwapFrames (a : Nat) (b : Nat)
  | CreateHitbox (id : Nat) (desc : String)
  | MoveHitbox (frame_index : Nat) (id : Nat) (from_ : Vec2) (to_ : Vec2)
  | ResizeHitbox (frame_index : Nat) (id : Nat) (from_ : Vec2) (to_ : Vec2)
  | ToggleHitboxEnabled (frame_index : Nat) (id : Nat)
deriving DecidableEq, Repr

/-- Replace the frame list of an animation, keeping the hitbox definitions. -/
def Animation.withFrames (anim : Animation) (fs : List Frame) : Animation :=
  { anim with timeline := ⟨fs⟩ }

/-- Data-model part of `Action::apply` (main.rs:758-833): the mutation of
the `Animation` (frame list and hitbox maps).  Rust panics — out-of-range
`Vec` indexing, the failed `assert!`, `unwrap()` in `hitbox_mut` — are
modelled as `none`. -/
def Action.applyAnim : Action → Animation → Option Animation
  | .RemoveFrame frame index, anim =>
    match anim.timeline.frames[index]? with
    | none => none
    | some removed =>
      if frame = removed
      then some (anim.withFrames (anim.timeline.frames.eraseIdx index))
      else none
  | .AddFrame image, anim =>
      some (anim.withFrames (anim.timeline.frames ++ [⟨image, ⟨0, 0⟩, ⟨0, 0⟩, 1, []⟩]))
  | .MoveSprite i _from to_, anim =>
    match anim.timeline.frames[i]? with
    | none => none
    | some f => some (anim.withFrames (anim.timeline.frames.set i { f with offset := to_ }))
  | .ChangeDelay i _from to_, anim =>
    match anim.timeline.frames[i]? with
    | none => none
    | some f => some (anim.withFrames (anim.timeline.frames.set i { f with delay := to_ }))
  | .SwapFrames a b, anim =>
    match anim.timeline.frames[a]?, anim.timeline.frames[b]? with
    | some x, some y =>
        some (anim.withFrames ((anim.timeline.frames.set a y).set b x))
    | _, _ => none
  | .SetMotionOffset i _from to_, anim =>
    match anim.timeline.frames[i]? with
    | none => none
    | some f => some (anim.withFrames (anim.timeline.frames.set i { f with root_motion := to_ }))
  | .CreateHitbox id desc, anim =>
      some { anim with hitboxes := alInsert anim.hitboxes id ⟨id, desc, false⟩ }
  | .MoveHitbox i id _from to_, anim =>
    match anim.timeline.frames[i]? with
    | none => none
    | some f =>
      if (alGet f.hitboxes id).isSome then
        some (anim.withFrames (anim.timeline.frames.set i
          { f with hitboxes := alModify f.hitboxes id (fun hp => { hp with pos := to_ }) }))
      else none
  | .ResizeHitbox i id _from to_, anim =>
    match anim.timeline.frames[i]? with
    | none => none
    | some f =>
      if (alGet f.hitboxes id).isSome then
        some (anim.withFrames (anim.timeline.frames.set i
          { f with hitboxes := alModify f.hitboxes id (fun hp => { hp with size := to_ }) }))
      else none
  | .ToggleHitboxEnabled i id, anim =>
    match anim.timeline.frames[i]? with
    | none => none
    | some f =>
      if (alGet f.hitboxes id).isSome then
        some (anim.withFrames (anim.timeline.frames.set i
          { f with hitboxes := alModify f.hitboxes id (fun hp => { hp with enabled := !hp.enabled }) }))
      else none

/-- Current-frame part of `Action::apply` (main.rs:760-771): given the old
current frame and the frame count after the data-model mutation, the new
current frame.  Only `RemoveFrame` touches it on apply.  `none` models the
`usize` underflow `len - 1` when the timeline became empty. -/
def Action.applyCf : Action → Nat → Nat → Option Nat
  | .RemoveFrame _ index, cf, newLen =>
      let c1 := if index < cf then cf - 1 else cf
      if c1 ≥ newLen ∧ c1 ≠ 0 then
        if newLen = 0 then none else some (newLen - 1)
      else some c1
  | _, cf, _ => some cf

/-- Data-model part of `Action::reverse` (main.rs:835-905). -/
def Action.reverseAnim : Action → Animation → Option Animation
  | .RemoveFrame frame index, anim =>
      if index ≤ anim.timeline.frames.length
      then some (anim.withFrames (anim.timeline.frames.insertIdx index frame))
      else none
  | .AddFrame image, anim =>
    match anim.timeline.frames.getLast? with
    | none => none
    | some f =>
      if f.image = image
      then some (anim.withFrames anim.timeline.frames.dropLast)
      else none
  | .MoveSprite i from_ _to, anim =>
    match anim.timeline.frames[i]? with
    | none => none
    | some f => some (anim.withFrames (anim.timeline.frames.set i { f with offset := from_ }))
  | .ChangeDelay i from_ _to, anim =>
    match anim.timeline.frames[i]? with
    | none => none
    | some f => some (anim.withFrames (anim.timeline.frames.set i { f with delay := from_ }))
  | .SwapFrames a b, anim =>
    match anim.timeline.frames[a]?, anim.timeline.frames[b]? with
    | some x, some y =>
        some (anim.withFrames ((anim.timeline.frames.set a y).set b x))
    | _, _ => none
  | .SetMotionOffset i from_ _to, anim =>
    match anim.timeline.frames[i]? with
    | none => none
    | some f => some (anim.withFrames (anim.timeline.frames.set i { f with root_motion := from_ }))
  | .CreateHitbox id _desc, anim =>
      some { anim with hitboxes := alRemove anim.hitboxes id }
  | .MoveHitbox i id from_ _to, anim =>
    match anim.timeline.frames[i]? with
    | none => none
    | some f =>
      if (alGet f.hitboxes id).isSome then
        some (anim.withFrames (anim.timeline.frames.set i
          { f with hitboxes := alModify f.hitboxes id (fun hp => { hp with pos := from_ }) }))
      else none
  | .ResizeHitbox i id from_ _to, anim =>
    match anim.timeline.frames[i]? with
    | none => none
    | some f =>
      if (alGet f.hitboxes id).isSome then
        some (anim.withFrames (anim.timeline.frames.set i
          { f with hitboxes := alModify f.hitboxes id (fun hp => { hp with size := from_ }) }))
      else none
  | .ToggleHitboxEnabled i id, anim =>
    match anim.timeline.frames[i]? with
    | none => none
    | some f =>
      if (alGet f.hitboxes id).isSome then
        some (anim.withFrames (anim.timeline.frames.set i
          { f with hitboxes := alModify f.hitboxes id (fun hp => { hp with enabled := !hp.enabled }) }))
      else none

/-- Current-frame part of `Action::reverse` (main.rs:837-857): only
`RemoveFrame` (re-insertion) and `AddFrame` (pop) touch the current frame
on reverse.  The second argument is the frame count after the data-model
mutation. -/
def Action.reverseCf : Action → Nat → Nat → Option Nat
  | .RemoveFrame _ index, cf, newLen =>
      if cf ≥ index ∧ newLen ≠ 1 then some (cf + 1) else some cf
  | .AddFrame _, cf, newLen =>
      if cf ≥ newLen ∧ cf ≠ 0 then
        if newLen = 0 then none else some (newLen - 1)
      else some cf
  | _, cf, _ => some cf

/-- The "warrants recording" predicate (`Action::warrants_action`,
main.rs:907-938): structural actions always record, value-writing actions
record only when `from != to` (resp. `a != b` for `SwapFrames`). -/
def Action.warrants_action : Action → Bool
  | .RemoveFrame _ _ => true
  | .ChangeDelay _ from_ to_ => from_ != to_
  | .AddFrame _ => true
  | .MoveSprite _ from_ to_ => from_ != to_
  | .SetMotionOffset _ from_ to_ => from_ != to_
  | .SwapFrames a b => a != b
  | .CreateHitbox _ _ => true
  | .MoveHitbox _ _ from_ to_ => from_ != to_
  | .ResizeHitbox _ _ from_ to_ => from_ != to_
  | .ToggleHitboxEnabled _ _ => true

/-- The claim-relevant fields of `EditorState` (main.rs:336-355): the Data
Model, the current-frame selection, the action history with its undo
depth, and the `has_saved` flag (the negation of the "dirty" flag).  The
purely UI-side fields (selected tool, drag origin, interaction lock, …)
are not referenced by any claim and are omitted. -/
structure EditorState where
  current_animation : Animation
  current_frame : Nat
  action_list : List Action
  undo_depth : Nat
  has_saved : Bool
deriving DecidableEq, Repr

/-- `EditorState::new` (main.rs:358-378), restricted to the modelled fields. -/
def EditorState.new : EditorState :=
  { current_animation := Animation.new
    current_frame := 0
    action_list := []
    undo_depth := 0
    has_saved := true }

/-- Full `Action::apply` (main.rs:758-833): data-model mutation followed by
the current-frame side effect. -/
def Action.apply (a : Action) (s : EditorState) : Option EditorState :=
  match a.applyAnim s.current_animation with
  | none => none
  | some anim =>
    match a.applyCf s.current_frame anim.timeline.frames.length with
    | none => none
    | some cf => some { s with current_animation := anim, current_frame := cf }

/-- Full `Action::reverse` (main.rs:835-905). -/
def Action.reverse (a : Action) (s : EditorState) : Option EditorState :=
  match a.reverseAnim s.current_animation with
  | none => none
  | some anim =>
    match a.reverseCf s.current_frame anim.timeline.frames.length with
    | none => none
    | some cf => some { s with current_animation := anim, current_frame := cf }

/-- `EditorState::do_action` (main.rs:619-630): discard non-warranting
actions; otherwise pop the `undo_depth` undone entries (panicking — `none`
— if the history is shorter), reset the undo depth, apply the action,
append it to the history and mark the document dirty. -/
def EditorState.do_action (s : EditorState) (a : Action) : Option EditorState :=
  if a.warrants_action then
    if s.undo_depth ≤ s.action_list.length then
      match a.apply { s with
          action_list := s.action_list.take (s.action_list.length - s.undo_depth),
          undo_depth := 0 } with
      | none => none
      | some s1 => some { s1 with action_list := s1.action_list ++ [a], has_saved := false }
    else none
  else some s

/-- `EditorState::undo` (main.rs:632-641): no-op at the backward edge,
otherwise reverse the action at position `len - (undo_depth + 1)`,
increment the undo depth and mark dirty. -/
def EditorState.undo (s : EditorState) : Option EditorState :=
  if h : s.action_list.length ≤ s.undo_depth then some s
  else
    let a := s.action_list.get ⟨s.action_list.length - s.undo_depth - 1, by omega⟩
    match a.reverse s with
    | none => none
    | some s1 => some { s1 with undo_depth := s.undo_depth + 1, has_saved := false }

/-- `EditorState::redo` (main.rs:643-653): no-op when fully forward,
otherwise apply the action at position `len - undo_depth`, decrement the
undo depth and mark dirty.  `none` models the `usize` underflow of
`len - undo_depth` when the depth exceeds the history length. -/
def EditorState.redo (s : EditorState) : Option EditorState :=
  if h0 : s.undo_depth = 0 then some s
  else if h : s.undo_depth ≤ s.action_list.length then
    let a := s.action_list.get ⟨s.action_list.length - s.undo_depth, by omega⟩
    match a.apply s with
    | none => none
    | some s1 => some { s1 with undo_depth := s.undo_depth - 1, has_saved := false }
  else none

/-- `EditorState::load` (main.rs:611-617): replace the Data Model with the
decoded animation, reset the current frame and the history, mark the
document clean.  Asset-handle allocation is abstracted: the decoded
`Animation` is passed in directly.  Note that the source does *not* reset
`undo_depth`. -/
def EditorState.load (s : EditorState) (anim : Animation) : EditorState :=
  { s with
    current_animation := anim
    current_frame := 0
    action_list := []
    has_saved := true }

/-- The "New document" reset performed by the `Input2::New` handler
(main.rs:1428-1444), restricted to the modelled fields. -/
def EditorState.newDocument (s : EditorState) : EditorState :=
  { s with
    current_animation := Animation.new
    current_frame := 0
    has_saved := true
    action_list := []
    undo_depth := 0 }

/-- An action is generated against a Data Model when every `from`/snapshot
field matches the current value of the entity it references (and the
referenced frame indices and hitbox ids exist; `CreateHitbox` ids are
fresh, as generated by the "Create hitbox" button in ui.rs:352-363, which
picks the smallest unused id). -/
def Action.genAgainst : Action → Animation → Bool
  | .RemoveFrame frame index, anim => anim.timeline.frames[index]? == some frame
  | .AddFrame _, _ => true
  | .MoveSprite i from_ _to, anim =>
      (anim.timeline.frames[i]?).map Frame.offset == some from_
  | .ChangeDelay i from_ _to, anim =>
      (anim.timeline.frames[i]?).map Frame.delay == some from_
  | .SetMotionOffset i from_ _to, anim =>
      (anim.timeline.frames[i]?).map Frame.root_motion == some from_
  | .SwapFrames a b, anim =>
      decide (a < anim.timeline.frames.length) && decide (b < anim.timeline.frames.length)
  | .CreateHitbox id _, anim => alGet anim.hitboxes id == none
  | .MoveHitbox i id from_ _to, anim =>
    match anim.timeline.frames[i]? with
    | some fr => (alGet fr.hitboxes id).map HitboxPos.pos == some from_
    | none => false
  | .ResizeHitbox i id from_ _to, anim =>
    match anim.timeline.frames[i]? with
    | some fr => (alGet fr.hitboxes id).map HitboxPos.size == some from_
    | none => false
  | .ToggleHitboxEnabled i id, anim =>
    match anim.timeline.frames[i]? with
    | some fr => (alGet fr.hitboxes id).isSome
    | none => false

/-- The current-frame sanity invariant: the selection is in range, or is
`0` on an empty timeline.  It holds for `EditorState::new` and after
`load`, and (as proved below) is preserved by every apply/reverse. -/
def cfOk (cf len : Nat) : Prop := cf < len ∨ cf = 0

/-- `cfOk` for a whole editor state. -/
def CfOk (s : EditorState) : Prop :=
  cfOk s.current_frame s.current_animation.timeline.frames.length

instance (s : EditorState) : Decidable (CfOk s) := by
  unfold CfOk cfOk; infer_instance

/-! ## Spritesheet codec -/

/-- One RGBA pixel (values of the `u8` channels; exact ranges are
irrelevant to the claims). -/
structure Pix where
  r : Nat
  g : Nat
  b : Nat
  a : Nat
deriving DecidableEq, Repr

/-- The fully transparent pixel `[0; 4]`. -/
def Pix.zero : Pix := ⟨0, 0, 0, 0⟩

/-- A decoded RGBA bitmap: dimensions plus a pixel lookup.  `pix x y` is
only meaningful for `x < width`, `y < height`. -/
structure CImage where
  width : Nat
  height : Nat
  pix : Nat → Nat → Pix

/-- Pixel-for-pixel equality of two bitmaps. -/
def imageEq (i1 i2 : CImage) : Prop :=
  i1.width = i2.width ∧ i1.height = i2.height ∧
    ∀ x < i1.width, ∀ y < i1.height, i1.pix x y = i2.pix x y

instance (i1 i2 : CImage) : Decidable (imageEq i1 i2) := by
  unfold imageEq; infer_instance

/-- `DynamicImage::crop_imm(x, y, w, h)` of the `image` crate: the crop
rectangle is clamped to the image bounds. -/
def crop_imm (img : CImage) (x y w h : Nat) : CImage :=
  let x1 := min x img.width
  let y1 := min y img.height
  let h1 := min h (img.height - y1)
  let w1 := min w (img.width - x1)
  ⟨w1, h1, fun a b => img.pix (x1 + a) (y1 + b)⟩

/-- One input tuple of the encoder: the `(image, offset, root_motion,
hitboxes, delay)` vector built at the top of `EditorState::save_to`
(main.rs:413-427).  The decoder produces values of the same shape. -/
structure PFrame where
  image : CImage
  offset : Vec2
  root_motion : Vec2
  hitboxes : List (Nat × HitboxPos)
  delay : Nat

/-- The tight opaque bounding-box scan of `save_to` (main.rs:437-453):
ascending `x` outer loop, ascending `y` inner loop, updating
`(left, right, top, bottom)` at every pixel with nonzero alpha.  Initial
state `(width, 0, height, 0)`. -/
def bbox (img : CImage) : Nat × Nat × Nat × Nat :=
  (List.range img.width).foldl
    (fun acc x =>
      (List.range img.height).foldl
        (fun acc y =>
          let (left, _right, top, bottom) := acc
          if (img.pix x y).a ≠ 0 then (min x left, x, min y top, max y bottom) else acc)
        acc)
    (img.width, 0, img.height, 0)

/-- Crop phase of `save_to` (main.rs:434-470): crop every image to its
opaque bounding box (zero-sized when fully transparent) and shift its
anchor offset by the box's top-left corner. -/
def crop_images (l : List PFrame) : List PFrame :=
  l.map (fun p =>
    let (left, right, top, bottom) := bbox p.image
    let wh := if right < left then (0, 0) else (right - left + 1, bottom - top + 1)
    { p with
      image := crop_imm p.image left top wh.1 wh.2
      offset := ⟨p.offset.x - (left : Nat), p.offset.y - (top : Nat)⟩ })

/-- The common cell width: maximum cropped width (main.rs:468). -/
def bbWidth (cropped : List PFrame) : Nat :=
  cropped.foldl (fun m p => max m p.image.width) 0

/-- The common cell height: maximum cropped height (main.rs:469). -/
def bbHeight (cropped : List PFrame) : Nat :=
  cropped.foldl (fun m p => max m p.image.height) 0

/-- Pad phase of `save_to` (main.rs:471-507): centre every cropped image
in a `bbw × bbh` cell (left padding = half the deficit rounded down,
right padding = the remainder; same vertically), fill the border with
transparent pixels, and shift the anchor offset by the left/top padding. -/
def pad_images (l : List PFrame) (bbw bbh : Nat) : List PFrame :=
  l.map (fun p =>
    let dx := bbw - p.image.width
    let dy := bbh - p.image.height
    let pad_left := dx / 2
    let pad_right := dx - pad_left
    let pad_top := dy / 2
    let pad_bot := dy - pad_top
    let expanded : CImage :=
      ⟨bbw, bbh, fun x y =>
        if x < pad_left ∨ bbw - x - 1 < pad_right ∨ y < pad_top ∨ bbh - y - 1 < pad_bot
        then Pix.zero
        else p.image.pix (x - pad_left) (y - pad_top)⟩
    { p with
      image := expanded
      offset := ⟨p.offset.x + (pad_left : Nat), p.offset.y + (pad_top : Nat)⟩ })

/-- `usize::div_ceil`: rounding division, as implemented in Rust core
(`d + 1` exactly when the remainder is nonzero; the divisor is positive at
every call site that does not panic). -/
def divCeil (a b : Nat) : Nat :=
  if a % b > 0 ∧ b > 0 then a / b + 1 else a / b

/-- The column-count search loop of `save_to` (main.rs:517-529), written
as a recursion over the candidate `c` scanning from `n` down to `1`:
`cols` starts at `n`; at each candidate, if the grid would be taller than
wide the loop breaks, otherwise `cols := c` and the scan continues. -/
def colsLoop (n bbw bbh : Nat) : Nat → Nat → Nat
  | 0, cols => cols
  | c + 1, cols =>
    let r := divCeil n (c + 1)
    let w := (c + 1) * bbw
    let h := r * bbh
    if h > w then cols else colsLoop n bbw bbh c (c + 1)

/-- The chosen column count (main.rs:517-531). -/
def chooseCols (n bbw bbh : Nat) : Nat :=
  colsLoop n bbw bbh n n

/-- The assembled spritesheet (main.rs:534-555): a `cols*bbw × rows*bbh`
transparent canvas where grid cell `(ix, iy)` holds padded frame
`iy*cols + ix` (cells past the frame count stay blank).  The nested
pixel-copy loops write each target pixel exactly once, so they are
rendered as a direct pixel-lookup function. -/
def sheetImage (padded : List PFrame) (cols rows bbw bbh : Nat) : CImage :=
  ⟨cols * bbw, rows * bbh, fun tx ty =>
    let ix := tx / bbw
    let iy := ty / bbh
    match padded[iy * cols + ix]? with
    | some p => p.image.pix (tx % bbw) (ty % bbh)
    | none => Pix.zero⟩

/-- Per-frame descriptor entry (`FrameData`, main.rs:1012-1018). -/
structure FrameData where
  delay : Nat
  origin : Vec2
  root_motion : Vec2
  hitboxes : List (Nat × HitboxPos)
deriving Repr

/-- Sheet descriptor (`Info`, main.rs:1002-1010). -/
structure Info where
  cell_width : Nat
  cell_height : Nat
  columns : Nat
  frame_count : Nat
  frame_data : List FrameData
  hitboxes : List (Nat × Hitbox)
deriving Repr

/-- The persisted artifact (`AnimationFileData`, main.rs:941-946).  The
PNG encoding, base64 transport and JSON serialization are lossless for
RGBA8 sheets and the descriptor, so the artifact is modelled as holding
the sheet bitmap and the descriptor directly. -/
structure AnimationFileData where
  spritesheet : CImage
  info : Info

/-- The codec core of `EditorState::save_to` (main.rs:412-597): crop, pad,
choose the grid, assemble the sheet, and build the descriptor.  `none`
models the `div_ceil` division by zero (main.rs:532) that panics when the
frame list is empty. -/
def save_to_core (frames : List PFrame) (defs : List (Nat × Hitbox)) :
    Option AnimationFileData :=
  if frames.length = 0 then none
  else
    let cropped := crop_images frames
    let bbw := bbWidth cropped
    let bbh := bbHeight cropped
    let padded := pad_images cropped bbw bbh
    let n := frames.length
    let cols := chooseCols n bbw bbh
    let rows := divCeil n cols
    some
      { spritesheet := sheetImage padded cols rows bbw bbh
        info :=
          { cell_width := bbw
            cell_height := bbh
            columns := cols
            frame_count := n
            frame_data :=
              padded.map (fun p => ⟨p.delay, p.offset, p.root_motion, p.hitboxes⟩)
            hitboxes := defs } }

/-- Collect an option-valued function over a list, failing if any element
fails (the decoder loop aborts the load on the first panic). -/
def mapOption {α β : Type} (f : α → Option β) : List α → Option (List β)
  | [] => some []
  | x :: xs =>
    match f x, mapOption f xs with
    | some y, some ys => some (y :: ys)
    | _, _ => none

/-- One iteration of the decoder loop (`load`, main.rs:298-321): crop
frame `i`'s grid cell out of the sheet and pair it with the descriptor's
metadata for that index.  `none` models the panicking `frame_data[i]`
indexing when the descriptor array is shorter than `frame_count`. -/
def loadFrame (a : AnimationFileData) (i : Nat) : Option PFrame :=
  (a.info.frame_data[i]?).map (fun fd =>
    let x := i % a.info.columns
    let y := i / a.info.columns
    ({ image := crop_imm a.spritesheet (x * a.info.cell_width) (y * a.info.cell_height)
          a.info.cell_width a.info.cell_height
       offset := fd.origin
       root_motion := fd.root_motion
       hitboxes := fd.hitboxes
       delay := fd.delay } : PFrame))

/-- The decoder (`load`, main.rs:285-327). -/
def load (a : AnimationFileData) : Option (List PFrame × List (Nat × Hitbox)) :=
  (mapOption (loadFrame a) (List.range a.info.frame_count)).map
    (fun fs => (fs, a.info.hitboxes))

/-- The encoder's own "final" per-frame values: the cropped-then-padded
images and adjusted offsets that `save_to` packs and records (the state
of its working vector after the two mutation loops, main.rs:434-507). -/
def finalFrames (F : List PFrame) : List PFrame :=
  pad_images (crop_images F) (bbWidth (crop_images F)) (bbHeight (crop_images F))

/-- State-level `EditorState::save_to` (main.rs:412-609): resolve the
frame handles to bitmaps, run the codec, and on success mark the document
saved.  `resolve` stands for the external asset store
(`assets.get(..).unwrap()`). -/
def EditorState.save_to (s : EditorState) (resolve : Nat → CImage) :
    Option (EditorState × AnimationFileData) :=
  let frames := s.current_animation.timeline.frames.map
    (fun f => ({ image := resolve f.image, offset := f.offset,
                 root_motion := f.root_motion, hitboxes := f.hitboxes,
                 delay := f.delay } : PFrame))
  match save_to_core frames s.current_animation.hitboxes with
  | none => none
  | some art => some ({ s with has_saved := true }, art)

/-! ## Iterated runs and example states -/

/-- Submit a list of actions through `do_action`, left to right. -/
def EditorState.do_actions (s : EditorState) : List Action → Option EditorState
  | [] => some s
  | a :: as =>
    match s.do_action a with
    | none => none
    | some s1 => s1.do_actions as

/-- Iterate `undo` the given number of times. -/
def undo_iter : Nat → EditorState → Option EditorState
  | 0, s => some s
  | n + 1, s =>
    match s.undo with
    | none => none
    | some s1 => undo_iter n s1

/-- Iterate `redo` the given number of times. -/
def redo_iter : Nat → EditorState → Option EditorState
  | 0, s => some s
  | n + 1, s =>
    match s.redo with
    | none => none
    | some s1 => redo_iter n s1

/-- A sequence of actions is well-formed from a state when each action
warrants recording and is generated against the Data Model of the state
it is applied to (cf. `Action.genAgainst`). -/
def WFseq : EditorState → List Action → Bool
  | _, [] => true
  | s, a :: as =>
    a.warrants_action && a.genAgainst s.current_animation &&
      (match s.do_action a with
       | some s1 => WFseq s1 as
       | none => false)

/-- A sample frame referencing image handle 3. -/
def exFrame3 : Frame := ⟨3, ⟨0, 0⟩, ⟨0, 0⟩, 1, []⟩

/-- A sample frame with delay 5 referencing image handle 9. -/
def exFrameD5 : Frame := ⟨9, ⟨0, 0⟩, ⟨0, 0⟩, 5, []⟩

/-- A reachable editor state whose history holds one recorded action:
the state right after `do_action(AddFrame 3)` on a fresh document. -/
def exHist1 : EditorState := ⟨⟨⟨[exFrame3]⟩, []⟩, 0, [.AddFrame 3], 0, false⟩

/-- A reachable editor state with one recorded, currently undone action:
`do_action(ChangeDelay 0 5 7)` on a one-frame document followed by
`undo` (so the visible delay is back to 5 and `undo_depth = 1`). -/
def exUndone1 : EditorState := ⟨⟨⟨[exFrameD5]⟩, []⟩, 0, [.ChangeDelay 0 5 7], 1, false⟩

/-- Frame referencing image handle 0. -/
def exFrameA : Frame := ⟨0, ⟨0, 0⟩, ⟨0, 0⟩, 1, []⟩

/-- Frame referencing image handle 1. -/
def exFrameB : Frame := ⟨1, ⟨0, 0⟩, ⟨0, 0⟩, 1, []⟩

/-- A two-frame editor state whose current frame is the last one. -/
def exTwoFrames : EditorState := ⟨⟨⟨[exFrameA, exFrameB]⟩, []⟩, 1, [], 0, true⟩

/-- An editor state with an empty timeline but an out-of-range
current-frame selection. -/
def exEmptyCf5 : EditorState := ⟨⟨⟨[]⟩, []⟩, 5, [], 0, true⟩

/-- A dirty editor state with one recorded, undone action: exactly the
result of `do_action(AddFrame 3)` followed by `undo` on a fresh document
(so the timeline is empty again and `undo_depth = 1`). -/
def exDirtyUndone : EditorState := ⟨⟨⟨[]⟩, []⟩, 0, [.AddFrame 3], 1, false⟩

/-- A clean one-frame document with empty history (as right after a load). -/
def exPreC2 : EditorState := ⟨⟨⟨[exFrameD5]⟩, []⟩, 0, [], 0, true⟩

/-- The state reached from `exUndone1` by one (effective) redo: the
delay-7 edit is re-applied and the depth returns to 0. -/
def exC2End : EditorState := ⟨⟨⟨[⟨9, ⟨0, 0⟩, ⟨0, 0⟩, 7, []⟩]⟩, []⟩, 0, [.ChangeDelay 0 5 7], 0, false⟩

/-- `exTwoFrames` after removing its last frame and undoing the removal:
the timeline is back, but the current frame is 0 rather than 1. -/
def exTwoRestored : EditorState := ⟨⟨⟨[exFrameA, exFrameB]⟩, []⟩, 0, [], 0, true⟩

/-- `exEmptyCf5` after applying `AddFrame 7`: one frame, but the
out-of-range current-frame selection 5 is left as it was. -/
def exAddedCf5 : EditorState := ⟨⟨⟨[⟨7, ⟨0, 0⟩, ⟨0, 0⟩, 1, []⟩]⟩, []⟩, 5, [], 0, true⟩

/-- A two-action well-formed sequence from a fresh document. -/
def exActs : List Action := [.AddFrame 5, .ChangeDelay 0 1 3]

/-- A fully opaque 8×8 bitmap. -/
def exOpaque8 : CImage := ⟨8, 8, fun _ _ => ⟨255, 255, 255, 255⟩⟩

/-- A frame tuple around `exOpaque8`. -/
def exPF8 : PFrame := ⟨exOpaque8, ⟨0, 0⟩, ⟨0, 0⟩, [], 1⟩

/-- Five identical fully opaque 8×8 frames: they all crop to the same
8×8 opaque bounding box. -/
def exFivePF : List PFrame := List.replicate 5 exPF8

/-- A 3×2 bitmap that is opaque exactly on the middle column, used to
exercise a nontrivial crop/pad in the codec round-trip witness. -/
def exMid32 : CImage :=
  ⟨3, 2, fun x _ => if x = 1 then ⟨7, 7, 7, 9⟩ else ⟨0, 0, 0, 0⟩⟩

/-- A fully opaque 2×2 bitmap. -/
def exOpaque2 : CImage := ⟨2, 2, fun _ _ => ⟨1, 2, 3, 4⟩⟩

/-- A two-frame input list for the codec round-trip witness, with
metadata and a hitbox instance that must survive the round trip. -/
def exTwoPF : List PFrame :=
  [⟨exMid32, ⟨2, 1⟩, ⟨4, 5⟩, [(0, ⟨0, ⟨1, 2⟩, ⟨3, 4⟩, true⟩)], 6⟩,
   ⟨exOpaque2, ⟨0, 0⟩, ⟨0, 0⟩, [], 2⟩]

/-- Reverse chain: `RC top xs bot` says that the actions `xs` (newest
first) link the Data Model `top` down to `bot`: each one reverses
successfully one level down, and applies back up. -/
def RC : Animation → List Action → Animation → Prop
  | top, [], bot => top = bot
  | top, a :: rest, bot =>
    ∃ mid, a.reverseAnim top = some mid ∧ a.applyAnim mid = some top ∧ RC mid rest bot

/-- Forward chain: `FC bot ys top` says the actions `ys` (oldest first)
apply successfully from `bot` up to `top`. -/
def FC : Animation → List Action → Animation → Prop
  | bot, [], top => bot = top
  | bot, a :: rest, top => ∃ mid, a.applyAnim bot = some mid ∧ FC mid rest top

/-! ## List and association-list helper lemmas -/

theorem set_self_of_getElem? {α : Type} :
    ∀ (l : List α) (i : Nat) (x : α), l[i]? = some x → l.set i x = l
  | [], i, x, h => by simp at h
  | a :: l, 0, x, h => by simp_all
  | a :: l, i + 1, x, h => by
    simp only [List.getElem?_cons_succ] at h
    simpa using set_self_of_getElem? l i x h

theorem insertIdx_eraseIdx_self {α : Type} :
    ∀ (l : List α) (i : Nat) (x : α), l[i]? = some x → (l.eraseIdx i).insertIdx i x = l
  | [], i, x, h => by simp at h
  | a :: l, 0, x, h => by simp_all [List.insertIdx]
  | a :: l, i + 1, x, h => by
    simp only [List.getElem?_cons_succ] at h
    simp only [List.eraseIdx, List.insertIdx_succ_cons]
    rw [insertIdx_eraseIdx_self l i x h]

theorem alGet_alModify_self {V : Type} (k : Nat) (f : V → V) :
    ∀ m : List (Nat × V), alGet (alModify m k f) k = (alGet m k).map f
  | [] => rfl
  | (k1, v) :: rest => by
    by_cases h : k1 = k <;> simp [alModify, alGet, h, alGet_alModify_self k f rest]

theorem alModify_alModify_self {V : Type} (k : Nat) (f g : V → V) :
    ∀ (m : List (Nat × V)) (v : V), alGet m k = some v → g (f v) = v →
      alModify (alModify m k f) k g = m
  | [], v, hv, _ => by simp [alGet] at hv
  | (k1, w) :: rest, v, hv, hgf => by
    by_cases h : k1 = k
    · subst h
      simp only [alGet, if_true, eq_self_iff_true, Option.some.injEq] at hv
      subst hv
      simp [alModify, hgf]
    · simp only [alGet, if_neg h] at hv
      simp [alModify, h, alModify_alModify_self k f g rest v hv hgf]

theorem alRemove_of_alGet_none {V : Type} (k : Nat) :
    ∀ m : List (Nat × V), alGet m k = none → alRemove m k = m
  | [], _ => rfl
  | (k1, v) :: rest, h => by
    by_cases hk : k1 = k
    · simp [alGet, hk] at h
    · simp only [alGet, if_neg hk] at h
      simpa [alRemove, List.filter, hk] using alRemove_of_alGet_none k rest h

theorem alRemove_append_singleton {V : Type} (k : Nat) (v : V)
    (m : List (Nat × V)) (h : alGet m k = none) :
    alRemove (m ++ [(k, v)]) k = m := by
  unfold alRemove
  rw [List.filter_append]
  have h1 : List.filter (fun p => p.1 ≠ k) m = m := alRemove_of_alGet_none k m h
  rw [h1]
  simp [List.filter]

theorem alInsert_of_alGet_none {V : Type} (k : Nat) (v : V)
    (m : List (Nat × V)) (h : alGet m k = none) :
    alInsert m k v = m ++ [(k, v)] := by
  simp [alInsert, h]

theorem lt_length_of_getElem? {α : Type} {l : List α} {i : Nat} {x : α}
    (h : l[i]? = some x) : i < l.length := by
  by_contra hc
  simp [List.getElem?_eq_none (Nat.le_of_not_lt hc)] at h

/-- After a swap, position `a` holds the old `b`-element (distinct indices). -/
theorem getElem?_swap_left {α : Type} {l : List α} {a b : Nat} {x y : α}
    (ha : l[a]? = some x) (_hb : l[b]? = some y) (hab : a ≠ b) :
    ((l.set a y).set b x)[a]? = some y := by
  rw [List.getElem?_set_ne (Ne.symm hab),
    List.getElem?_set_self (lt_length_of_getElem? ha)]

/-- After a swap, position `b` holds the old `a`-element. -/
theorem getElem?_swap_right {α : Type} {l : List α} {a b : Nat} (x : α) {y : α}
    (hb : l[b]? = some y) :
    ((l.set a y).set b x)[b]? = some x :=
  List.getElem?_set_self (by simpa using lt_length_of_getElem? hb)

/-- Double swap restores the list (`Vec::swap` is self-inverse),
distinct-indices case. -/
theorem swap_swap_restore {α : Type} (l : List α) (a b : Nat) (x y : α)
    (ha : l[a]? = some x) (hb : l[b]? = some y) (hab : a ≠ b) :
    ((((l.set a y).set b x).set a x).set b y) = l := by
  have hal : a < l.length := lt_length_of_getElem? ha
  have hbl : b < l.length := lt_length_of_getElem? hb
  apply List.ext_getElem?
  intro n
  by_cases hn2 : n = b
  · subst hn2
    rw [List.getElem?_set_self (by simpa using hbl), hb]
  · by_cases hn1 : n = a
    · subst hn1
      rw [List.getElem?_set_ne (fun hc => hn2 hc.symm),
        List.getElem?_set_self (by simpa using hal), ha]
    · rw [List.getElem?_set_ne (fun hc => hn2 hc.symm),
        List.getElem?_set_ne (fun hc => hn1 hc.symm),
        List.getElem?_set_ne (fun hc => hn2 hc.symm),
        List.getElem?_set_ne (fun hc => hn1 hc.symm)]

@[simp]
theorem withFrames_frames (anim : Animation) (l : List Frame) :
    (anim.withFrames l).timeline.frames = l := rfl

@[simp]
theorem withFrames_hitboxes (anim : Animation) (l : List Frame) :
    (anim.withFrames l).hitboxes = anim.hitboxes := rfl

theorem withFrames_self (anim : Animation) :
    anim.withFrames anim.timeline.frames = anim := rfl

/-- Core inversion property: an action generated against a Data Model
applies successfully, and reversing it afterwards restores the Data Model
exactly. -/
theorem applyAnim_reverseAnim (a : Action) (anim : Animation)
    (h : a.genAgainst anim = true) :
    ∃ anim2, a.applyAnim anim = some anim2 ∧ a.reverseAnim anim2 = some anim := by
  cases a with
  | RemoveFrame frame index =>
    simp only [Action.genAgainst, beq_iff_eq] at h
    have hidx : index < anim.timeline.frames.length := lt_length_of_getElem? h
    refine ⟨anim.withFrames (anim.timeline.frames.eraseIdx index),
      by simp [Action.applyAnim, h], ?_⟩
    simp only [Action.reverseAnim, withFrames_frames]
    rw [if_pos (by rw [List.length_eraseIdx]; simp only [if_pos hidx]; omega)]
    rw [insertIdx_eraseIdx_self _ _ _ h]
    rfl
  | AddFrame image =>
    refine ⟨anim.withFrames (anim.timeline.frames ++ [⟨image, ⟨0, 0⟩, ⟨0, 0⟩, 1, []⟩]),
      by simp [Action.applyAnim], ?_⟩
    simp only [Action.reverseAnim, withFrames_frames, List.getLast?_concat, if_true]
    rw [List.dropLast_concat]
    rfl
  | MoveSprite i from_ to_ =>
    simp only [Action.genAgainst, beq_iff_eq, Option.map_eq_some'] at h
    obtain ⟨f, hf, hoff⟩ := h
    have hlen : i < anim.timeline.frames.length := lt_length_of_getElem? hf
    refine ⟨anim.withFrames (anim.timeline.frames.set i { f with offset := to_ }),
      by simp [Action.applyAnim, hf], ?_⟩
    simp only [Action.reverseAnim, withFrames_frames,
      List.getElem?_set_self (by simpa using hlen), List.set_set]
    have hrestore : (⟨f.image, from_, f.root_motion, f.delay, f.hitboxes⟩ : Frame) = f := by
      cases f; simp_all
    rw [hrestore, set_self_of_getElem? _ _ _ hf]
    rfl
  | ChangeDelay i from_ to_ =>
    simp only [Action.genAgainst, beq_iff_eq, Option.map_eq_some'] at h
    obtain ⟨f, hf, hdel⟩ := h
    have hlen : i < anim.timeline.frames.length := lt_length_of_getElem? hf
    refine ⟨anim.withFrames (anim.timeline.frames.set i { f with delay := to_ }),
      by simp [Action.applyAnim, hf], ?_⟩
    simp only [Action.reverseAnim, withFrames_frames,
      List.getElem?_set_self (by simpa using hlen), List.set_set]
    have hrestore : (⟨f.image, f.offset, f.root_motion, from_, f.hitboxes⟩ : Frame) = f := by
      cases f; simp_all
    rw [hrestore, set_self_of_getElem? _ _ _ hf]
    rfl
  | SetMotionOffset i from_ to_ =>
    simp only [Action.genAgainst, beq_iff_eq, Option.map_eq_some'] at h
    obtain ⟨f, hf, hrm⟩ := h
    have hlen : i < anim.timeline.frames.length := lt_length_of_getElem? hf
    refine ⟨anim.withFrames (anim.timeline.frames.set i { f with root_motion := to_ }),
      by simp [Action.applyAnim, hf], ?_⟩
    simp only [Action.reverseAnim, withFrames_frames,
      List.getElem?_set_self (by simpa using hlen), List.set_set]
    have hrestore : (⟨f.image, f.offset, from_, f.delay, f.hitboxes⟩ : Frame) = f := by
      cases f; simp_all
    rw [hrestore, set_self_of_getElem? _ _ _ hf]
    rfl
  | SwapFrames a b =>
    simp only [Action.genAgainst, Bool.and_eq_true, decide_eq_true_eq] at h
    obtain ⟨ha, hb⟩ := h
    obtain ⟨x, hx⟩ : ∃ x, anim.timeline.frames[a]? = some x :=
      ⟨_, List.getElem?_eq_getElem ha⟩
    obtain ⟨y, hy⟩ : ∃ y, anim.timeline.frames[b]? = some y :=
      ⟨_, List.getElem?_eq_getElem hb⟩
    by_cases hab : a = b
    · subst hab
      have hxy : x = y := by rw [hx] at hy; exact (Option.some.injEq _ _).mp hy
      subst hxy
      have heq : (anim.timeline.frames.set a x).set a x = anim.timeline.frames := by
        rw [List.set_set, set_self_of_getElem? _ _ _ hx]
      refine ⟨anim.withFrames ((anim.timeline.frames.set a x).set a x),
        by simp [Action.applyAnim, hx], ?_⟩
      rw [heq, withFrames_self]
      simp only [Action.reverseAnim, hx]
      rw [heq, withFrames_self]
    · refine ⟨anim.withFrames ((anim.timeline.frames.set a y).set b x),
        by simp [Action.applyAnim, hx, hy], ?_⟩
      simp only [Action.reverseAnim, withFrames_frames,
        getElem?_swap_left hx hy hab, getElem?_swap_right x hy]
      rw [swap_swap_restore _ _ _ _ _ hx hy hab]
      rfl
  | CreateHitbox id desc =>
    simp only [Action.genAgainst, beq_iff_eq] at h
    refine ⟨{ anim with hitboxes := anim.hitboxes ++ [(id, ⟨id, desc, false⟩)] }, ?_, ?_⟩
    · simp [Action.applyAnim, alInsert_of_alGet_none _ _ _ h]
    · simp only [Action.reverseAnim]
      rw [alRemove_append_singleton _ _ _ h]
  | MoveHitbox i id from_ to_ =>
    simp only [Action.genAgainst] at h
    cases hfi : anim.timeline.frames[i]? with
    | none => simp only [hfi] at h; exact absurd h (by simp)
    | some fr =>
      simp only [hfi, beq_iff_eq, Option.map_eq_some'] at h
      obtain ⟨hp, hhp, hpos⟩ := h
      have hlen : i < anim.timeline.frames.length := lt_length_of_getElem? hfi
      have hmaps : alModify (alModify fr.hitboxes id fun q => { q with pos := to_ }) id
          (fun q => { q with pos := from_ }) = fr.hitboxes :=
        alModify_alModify_self id _ _ fr.hitboxes hp hhp (by cases hp; simp_all)
      refine ⟨anim.withFrames (anim.timeline.frames.set i
          { fr with hitboxes := alModify fr.hitboxes id (fun q => { q with pos := to_ }) }),
        by simp [Action.applyAnim, hfi, hhp], ?_⟩
      simp only [Action.reverseAnim, withFrames_frames,
        List.getElem?_set_self (by simpa using hlen)]
      rw [if_pos (by rw [alGet_alModify_self, hhp]; rfl)]
      simp only [List.set_set]
      have hfr : (⟨fr.image, fr.offset, fr.root_motion, fr.delay,
          alModify (alModify fr.hitboxes id fun q => { q with pos := to_ }) id
            (fun q => { q with pos := from_ })⟩ : Frame) = fr := by
        rw [hmaps]
      rw [hfr, set_self_of_getElem? _ _ _ hfi]
      rfl
  | ResizeHitbox i id from_ to_ =>
    simp only [Action.genAgainst] at h
    cases hfi : anim.timeline.frames[i]? with
    | none => simp only [hfi] at h; exact absurd h (by simp)
    | some fr =>
      simp only [hfi, beq_iff_eq, Option.map_eq_some'] at h
      obtain ⟨hp, hhp, hsz⟩ := h
      have hlen : i < anim.timeline.frames.length := lt_length_of_getElem? hfi
      have hmaps : alModify (alModify fr.hitboxes id fun q => { q with size := to_ }) id
          (fun q => { q with size := from_ }) = fr.hitboxes :=
        alModify_alModify_self id _ _ fr.hitboxes hp hhp (by cases hp; simp_all)
      refine ⟨anim.withFrames (anim.timeline.frames.set i
          { fr with hitboxes := alModify fr.hitboxes id (fun q => { q with size := to_ }) }),
        by simp [Action.applyAnim, hfi, hhp], ?_⟩
      simp only [Action.reverseAnim, withFrames_frames,
        List.getElem?_set_self (by simpa using hlen)]
      rw [if_pos (by rw [alGet_alModify_self, hhp]; rfl)]
      simp only [List.set_set]
      have hfr : (⟨fr.image, fr.offset, fr.root_motion, fr.delay,
          alModify (alModify fr.hitboxes id fun q => { q with size := to_ }) id
            (fun q => { q with size := from_ })⟩ : Frame) = fr := by
        rw [hmaps]
      rw [hfr, set_self_of_getElem? _ _ _ hfi]
      rfl
  | ToggleHitboxEnabled i id =>
    simp only [Action.genAgainst] at h
    cases hfi : anim.timeline.frames[i]? with
    | none => simp only [hfi] at h; exact absurd h (by simp)
    | some fr =>
      simp only [hfi] at h
      obtain ⟨hp, hhp⟩ := Option.isSome_iff_exists.mp h
      have hlen : i < anim.timeline.frames.length := lt_length_of_getElem? hfi
      have hmaps : alModify (alModify fr.hitboxes id fun q => { q with enabled := !q.enabled }) id
          (fun q => { q with enabled := !q.enabled }) = fr.hitboxes :=
        alModify_alModify_self id _ _ fr.hitboxes hp hhp (by cases hp; simp)
      refine ⟨anim.withFrames (anim.timeline.frames.set i
          { fr with hitboxes := alModify fr.hitboxes id (fun q => { q with enabled := !q.enabled }) }),
        by simp [Action.applyAnim, hfi, hhp], ?_⟩
      simp only [Action.reverseAnim, withFrames_frames,
        List.getElem?_set_self (by simpa using hlen)]
      rw [if_pos (by rw [alGet_alModify_self, hhp]; rfl)]
      simp only [List.set_set]
      have hfr : (⟨fr.image, fr.offset, fr.root_motion, fr.delay,
          alModify (alModify fr.hitboxes id fun q => { q with enabled := !q.enabled }) id
            (fun q => { q with enabled := !q.enabled })⟩ : Frame) = fr := by
        rw [hmaps]
      rw [hfr, set_self_of_getElem? _ _ _ hfi]
      rfl

/-- Frame-count change of a successful `applyAnim`, together with the
index bound it implies. -/
theorem applyAnim_length (a : Action) (anim anim2 : Animation)
    (h : a.applyAnim anim = some anim2) :
    (match a with
     | .RemoveFrame _ index =>
        anim2.timeline.frames.length + 1 = anim.timeline.frames.length ∧
          index < anim.timeline.frames.length
     | .AddFrame _ => anim2.timeline.frames.length = anim.timeline.frames.length + 1
     | _ => anim2.timeline.frames.length = anim.timeline.frames.length) := by
  cases a with
  | RemoveFrame frame index =>
    simp only [Action.applyAnim] at h
    cases hfi : anim.timeline.frames[index]? with
    | none => simp only [hfi] at h; exact absurd h (by simp)
    | some removed =>
      simp only [hfi] at h
      by_cases he : frame = removed
      · rw [if_pos he] at h
        have hidx := lt_length_of_getElem? hfi
        have := congrArg (fun o => Option.map (fun an => an.timeline.frames.length) o) h
        simp [List.length_eraseIdx, hidx] at this
        constructor
        · omega
        · exact hidx
      · rw [if_neg he] at h; exact absurd h (by simp)
  | AddFrame image =>
    simp only [Action.applyAnim, Option.some.injEq] at h
    subst h; simp
  | MoveSprite i from_ to_ =>
    simp only [Action.applyAnim] at h
    cases hfi : anim.timeline.frames[i]? with
    | none => simp only [hfi] at h; exact absurd h (by simp)
    | some f => simp only [hfi] at h; simp only [Option.some.injEq] at h; subst h; simp
  | ChangeDelay i from_ to_ =>
    simp only [Action.applyAnim] at h
    cases hfi : anim.timeline.frames[i]? with
    | none => simp only [hfi] at h; exact absurd h (by simp)
    | some f => simp only [hfi] at h; simp only [Option.some.injEq] at h; subst h; simp
  | SetMotionOffset i from_ to_ =>
    simp only [Action.applyAnim] at h
    cases hfi : anim.timeline.frames[i]? with
    | none => simp only [hfi] at h; exact absurd h (by simp)
    | some f => simp only [hfi] at h; simp only [Option.some.injEq] at h; subst h; simp
  | SwapFrames a b =>
    simp only [Action.applyAnim] at h
    cases hfa : anim.timeline.frames[a]? with
    | none => simp only [hfa] at h; exact absurd h (by simp)
    | some x =>
      cases hfb : anim.timeline.frames[b]? with
      | none => simp only [hfa, hfb] at h; exact absurd h (by simp)
      | some y =>
        simp only [hfa, hfb] at h; simp only [Option.some.injEq] at h; subst h; simp
  | CreateHitbox id desc =>
    simp only [Action.applyAnim, Option.some.injEq] at h
    subst h; rfl
  | MoveHitbox i id from_ to_ =>
    simp only [Action.applyAnim] at h
    cases hfi : anim.timeline.frames[i]? with
    | none => simp only [hfi] at h; exact absurd h (by simp)
    | some f =>
      simp only [hfi] at h
      by_cases hg : (alGet f.hitboxes id).isSome
      · rw [if_pos hg] at h; simp only [Option.some.injEq] at h; subst h; simp
      · rw [if_neg hg] at h; exact absurd h (by simp)
  | ResizeHitbox i id from_ to_ =>
    simp only [Action.applyAnim] at h
    cases hfi : anim.timeline.frames[i]? with
    | none => simp only [hfi] at h; exact absurd h (by simp)
    | some f =>
      simp only [hfi] at h
      by_cases hg : (alGet f.hitboxes id).isSome
      · rw [if_pos hg] at h; simp only [Option.some.injEq] at h; subst h; simp
      · rw [if_neg hg] at h; exact absurd h (by simp)
  | ToggleHitboxEnabled i id =>
    simp only [Action.applyAnim] at h
    cases hfi : anim.timeline.frames[i]? with
    | none => simp only [hfi] at h; exact absurd h (by simp)
    | some f =>
      simp only [hfi] at h
      by_cases hg : (alGet f.hitboxes id).isSome
      · rw [if_pos hg] at h; simp only [Option.some.injEq] at h; subst h; simp
      · rw [if_neg hg] at h; exact absurd h (by simp)

/-- Frame-count change of a successful `reverseAnim`. -/
theorem reverseAnim_length (a : Action) (anim anim2 : Animation)
    (h : a.reverseAnim anim = some anim2) :
    (match a with
     | .RemoveFrame _ index =>
        anim2.timeline.frames.length = anim.timeline.frames.length + 1 ∧
          index ≤ anim.timeline.frames.length
     | .AddFrame _ =>
        anim2.timeline.frames.length + 1 = anim.timeline.frames.length
     | _ => anim2.timeline.frames.length = anim.timeline.frames.length) := by
  cases a with
  | RemoveFrame frame index =>
    simp only [Action.reverseAnim] at h
    by_cases hle : index ≤ anim.timeline.frames.length
    · rw [if_pos hle] at h
      simp only [Option.some.injEq] at h
      subst h
      exact ⟨by simp [List.length_insertIdx _ _ hle], hle⟩
    · rw [if_neg hle] at h; exact absurd h (by simp)
  | AddFrame image =>
    simp only [Action.reverseAnim] at h
    cases hl : anim.timeline.frames.getLast? with
    | none => simp only [hl] at h; exact absurd h (by simp)
    | some f =>
      simp only [hl] at h
      by_cases he : f.image = image
      · rw [if_pos he] at h
        simp only [Option.some.injEq] at h
        subst h
        have hne : anim.timeline.frames ≠ [] := by
          intro hc; rw [hc] at hl; simp at hl
        have := List.length_pos.mpr hne
        simp [List.length_dropLast]
        omega
      · rw [if_neg he] at h; exact absurd h (by simp)
  | MoveSprite i from_ to_ =>
    simp only [Action.reverseAnim] at h
    cases hfi : anim.timeline.frames[i]? with
    | none => simp only [hfi] at h; exact absurd h (by simp)
    | some f => simp only [hfi] at h; simp only [Option.some.injEq] at h; subst h; simp
  | ChangeDelay i from_ to_ =>
    simp only [Action.reverseAnim] at h
    cases hfi : anim.timeline.frames[i]? with
    | none => simp only [hfi] at h; exact absurd h (by simp)
    | some f => simp only [hfi] at h; simp only [Option.some.injEq] at h; subst h; simp
  | SetMotionOffset i from_ to_ =>
    simp only [Action.reverseAnim] at h
    cases hfi : anim.timeline.frames[i]? with
    | none => simp only [hfi] at h; exact absurd h (by simp)
    | some f => simp only [hfi] at h; simp only [Option.some.injEq] at h; subst h; simp
  | SwapFrames a b =>
    simp only [Action.reverseAnim] at h
    cases hfa : anim.timeline.frames[a]? with
    | none => simp only [hfa] at h; exact absurd h (by simp)
    | some x =>
      cases hfb : anim.timeline.frames[b]? with
      | none => simp only [hfa, hfb] at h; exact absurd h (by simp)
      | some y =>
        simp only [hfa, hfb] at h; simp only [Option.some.injEq] at h; subst h; simp
  | CreateHitbox id desc =>
    simp only [Action.reverseAnim, Option.some.injEq] at h
    subst h; rfl
  | MoveHitbox i id from_ to_ =>
    simp only [Action.reverseAnim] at h
    cases hfi : anim.timeline.frames[i]? with
    | none => simp only [hfi] at h; exact absurd h (by simp)
    | some f =>
      simp only [hfi] at h
      by_cases hg : (alGet f.hitboxes id).isSome
      · rw [if_pos hg] at h; simp only [Option.some.injEq] at h; subst h; simp
      · rw [if_neg hg] at h; exact absurd h (by simp)
  | ResizeHitbox i id from_ to_ =>
    simp only [Action.reverseAnim] at h
    cases hfi : anim.timeline.frames[i]? with
    | none => simp only [hfi] at h; exact absurd h (by simp)
    | some f =>
      simp only [hfi] at h
      by_cases hg : (alGet f.hitboxes id).isSome
      · rw [if_pos hg] at h; simp only [Option.some.injEq] at h; subst h; simp
      · rw [if_neg hg] at h; exact absurd h (by simp)
  | ToggleHitboxEnabled i id =>
    simp only [Action.reverseAnim] at h
    cases hfi : anim.timeline.frames[i]? with
    | none => simp only [hfi] at h; exact absurd h (by simp)
    | some f =>
      simp only [hfi] at h
      by_cases hg : (alGet f.hitboxes id).isSome
      · rw [if_pos hg] at h; simp only [Option.some.injEq] at h; subst h; simp
      · rw [if_neg hg] at h; exact absurd h (by simp)

/-- The current-frame update of `apply` never panics from a sane state,
and keeps the state sane. -/
theorem applyCf_ok (a : Action) (anim anim2 : Animation) (cf : Nat)
    (h : a.applyAnim anim = some anim2)
    (hcf : cfOk cf anim.timeline.frames.length) :
    ∃ cf2, a.applyCf cf anim2.timeline.frames.length = some cf2 ∧
      cfOk cf2 anim2.timeline.frames.length := by
  have hl := applyAnim_length a anim anim2 h
  cases a with
  | RemoveFrame frame index =>
    obtain ⟨hlen, hidx⟩ := hl
    simp only [Action.applyCf]
    unfold cfOk at hcf ⊢
    by_cases hic : index < cf <;> simp only [hic, if_true, if_false]
    · by_cases h1 : cf - 1 ≥ anim2.timeline.frames.length ∧ cf - 1 ≠ 0
      · rw [if_pos h1]
        have hnz : anim2.timeline.frames.length ≠ 0 := by omega
        rw [if_neg hnz]
        exact ⟨_, rfl, by omega⟩
      · rw [if_neg h1]
        exact ⟨_, rfl, by omega⟩
    · by_cases h1 : cf ≥ anim2.timeline.frames.length ∧ cf ≠ 0
      · rw [if_pos h1]
        have hnz : anim2.timeline.frames.length ≠ 0 := by omega
        rw [if_neg hnz]
        exact ⟨_, rfl, by omega⟩
      · rw [if_neg h1]
        exact ⟨_, rfl, by omega⟩
  | AddFrame image => exact ⟨cf, rfl, by unfold cfOk at hcf ⊢; omega⟩
  | MoveSprite i from_ to_ => exact ⟨cf, rfl, by unfold cfOk at hcf ⊢; omega⟩
  | ChangeDelay i from_ to_ => exact ⟨cf, rfl, by unfold cfOk at hcf ⊢; omega⟩
  | SetMotionOffset i from_ to_ => exact ⟨cf, rfl, by unfold cfOk at hcf ⊢; omega⟩
  | SwapFrames a b => exact ⟨cf, rfl, by unfold cfOk at hcf ⊢; omega⟩
  | CreateHitbox id desc => exact ⟨cf, rfl, by unfold cfOk at hcf ⊢; omega⟩
  | MoveHitbox i id from_ to_ => exact ⟨cf, rfl, by unfold cfOk at hcf ⊢; omega⟩
  | ResizeHitbox i id from_ to_ => exact ⟨cf, rfl, by unfold cfOk at hcf ⊢; omega⟩
  | ToggleHitboxEnabled i id => exact ⟨cf, rfl, by unfold cfOk at hcf ⊢; omega⟩

/-- The current-frame update of `reverse` never panics from a sane state,
and keeps the state sane. -/
theorem reverseCf_ok (a : Action) (anim anim2 : Animation) (cf : Nat)
    (h : a.reverseAnim anim = some anim2)
    (hcf : cfOk cf anim.timeline.frames.length) :
    ∃ cf2, a.reverseCf cf anim2.timeline.frames.length = some cf2 ∧
      cfOk cf2 anim2.timeline.frames.length := by
  have hl := reverseAnim_length a anim anim2 h
  cases a with
  | RemoveFrame frame index =>
    obtain ⟨hlen, hidx⟩ := hl
    simp only [Action.reverseCf]
    unfold cfOk at hcf ⊢
    by_cases h1 : cf ≥ index ∧ anim2.timeline.frames.length ≠ 1
    · rw [if_pos h1]; exact ⟨_, rfl, by omega⟩
    · rw [if_neg h1]
      refine ⟨_, rfl, ?_⟩
      rcases hcf with hc | hc
      · omega
      · omega
  | AddFrame image =>
    simp only [Action.reverseCf]
    unfold cfOk at hcf ⊢
    by_cases h1 : cf ≥ anim2.timeline.frames.length ∧ cf ≠ 0
    · rw [if_pos h1]
      have hnz : anim2.timeline.frames.length ≠ 0 := by omega
      rw [if_neg hnz]
      exact ⟨_, rfl, by omega⟩
    · rw [if_neg h1]; exact ⟨_, rfl, by omega⟩
  | MoveSprite i from_ to_ => exact ⟨cf, rfl, by unfold cfOk at hcf ⊢; omega⟩
  | ChangeDelay i from_ to_ => exact ⟨cf, rfl, by unfold cfOk at hcf ⊢; omega⟩
  | SetMotionOffset i from_ to_ => exact ⟨cf, rfl, by unfold cfOk at hcf ⊢; omega⟩
  | SwapFrames a b => exact ⟨cf, rfl, by unfold cfOk at hcf ⊢; omega⟩
  | CreateHitbox id desc => exact ⟨cf, rfl, by unfold cfOk at hcf ⊢; omega⟩
  | MoveHitbox i id from_ to_ => exact ⟨cf, rfl, by unfold cfOk at hcf ⊢; omega⟩
  | ResizeHitbox i id from_ to_ => exact ⟨cf, rfl, by unfold cfOk at hcf ⊢; omega⟩
  | ToggleHitboxEnabled i id => exact ⟨cf, rfl, by unfold cfOk at hcf ⊢; omega⟩

/-- State-level apply: an action generated against a sane state applies
successfully, its Data-Model effect is `applyAnim`, it is reversible at
the Data-Model level, and it leaves history, undo depth and dirty flag
untouched. -/
theorem apply_ok (a : Action) (s : EditorState)
    (hg : a.genAgainst s.current_animation = true) (hcf : CfOk s) :
    ∃ s2, a.apply s = some s2 ∧
      a.applyAnim s.current_animation = some s2.current_animation ∧
      a.reverseAnim s2.current_animation = some s.current_animation ∧
      CfOk s2 ∧ s2.action_list = s.action_list ∧ s2.undo_depth = s.undo_depth ∧
      s2.has_saved = s.has_saved := by
  obtain ⟨anim2, happ, hrev⟩ := applyAnim_reverseAnim a s.current_animation hg
  obtain ⟨cf2, hcf2, hok2⟩ := applyCf_ok a s.current_animation anim2 s.current_frame happ hcf
  refine ⟨{ s with current_animation := anim2, current_frame := cf2 }, ?_, happ, hrev, hok2, rfl, rfl, rfl⟩
  simp only [Action.apply, happ, hcf2]

/-- State-level reverse: if `reverseAnim` succeeds on a sane state, the
whole `reverse` succeeds, with that Data-Model result, keeping the state
sane and the bookkeeping fields untouched. -/
theorem reverse_ok (a : Action) (t : EditorState) (animPrev : Animation)
    (hrev : a.reverseAnim t.current_animation = some animPrev) (hcf : CfOk t) :
    ∃ t2, a.reverse t = some t2 ∧ t2.current_animation = animPrev ∧
      CfOk t2 ∧ t2.action_list = t.action_list ∧ t2.undo_depth = t.undo_depth ∧
      t2.has_saved = t.has_saved := by
  obtain ⟨cf2, hcf2, hok2⟩ := reverseCf_ok a t.current_animation animPrev t.current_frame hrev hcf
  refine ⟨{ t with current_animation := animPrev, current_frame := cf2 }, ?_, rfl, hok2, rfl, rfl, rfl⟩
  simp only [Action.reverse, hrev, hcf2]

/-- State-level apply driven by a known `applyAnim` success. -/
theorem apply_ok_of_applyAnim (a : Action) (s : EditorState) (anim2 : Animation)
    (happ : a.applyAnim s.current_animation = some anim2) (hcf : CfOk s) :
    ∃ s2, a.apply s = some s2 ∧ s2.current_animation = anim2 ∧
      CfOk s2 ∧ s2.action_list = s.action_list ∧ s2.undo_depth = s.undo_depth ∧
      s2.has_saved = s.has_saved := by
  obtain ⟨cf2, hcf2, hok2⟩ := applyCf_ok a s.current_animation anim2 s.current_frame happ hcf
  refine ⟨{ s with current_animation := anim2, current_frame := cf2 }, ?_, rfl, hok2, rfl, rfl, rfl⟩
  simp only [Action.apply, happ, hcf2]

/-- A warranting, well-generated action succeeds through `do_action` from
any sane state whose undo depth does not exceed the history length; the
result has the truncated history plus the new action, depth `0`, the
dirty flag set, and a reversible Data-Model step. -/
theorem do_action_ok (a : Action) (s : EditorState)
    (hw : a.warrants_action = true) (hg : a.genAgainst s.current_animation = true)
    (hcf : CfOk s) (hinv : s.undo_depth ≤ s.action_list.length) :
    ∃ s2, s.do_action a = some s2 ∧
      a.applyAnim s.current_animation = some s2.current_animation ∧
      a.reverseAnim s2.current_animation = some s.current_animation ∧
      CfOk s2 ∧
      s2.action_list =
        s.action_list.take (s.action_list.length - s.undo_depth) ++ [a] ∧
      s2.undo_depth = 0 ∧ s2.has_saved = false := by
  obtain ⟨anim2, happ, hrev⟩ := applyAnim_reverseAnim a s.current_animation hg
  set s1 : EditorState := { s with
    action_list := s.action_list.take (s.action_list.length - s.undo_depth),
    undo_depth := 0 } with hs1
  have hcf1 : CfOk s1 := hcf
  have happ1 : a.applyAnim s1.current_animation = some anim2 := happ
  obtain ⟨s2, happly, hanim, hok, hlist, hdepth, hsaved⟩ :=
    apply_ok_of_applyAnim a s1 anim2 happ1 hcf1
  refine ⟨{ s2 with action_list := s2.action_list ++ [a], has_saved := false },
    ?_, by rw [hanim]; exact happ, by rw [hanim]; exact hrev, hok, ?_, ?_, rfl⟩
  · simp only [EditorState.do_action, hw, if_true, if_pos hinv]
    rw [show ({ s with
        action_list := s.action_list.take (s.action_list.length - s.undo_depth),
        undo_depth := 0 } : EditorState) = s1 from rfl, happly]
  · rw [hlist]
  · rw [hdepth]

/-- Extending a reverse chain at the bottom. -/
theorem RC_append_one (a : Action) :
    ∀ (xs : List Action) (top mid mid2 : Animation), RC top xs mid →
      a.reverseAnim mid = some mid2 → a.applyAnim mid2 = some mid →
      RC top (xs ++ [a]) mid2
  | [], top, mid, mid2, hrc, hrev, happ => by
    unfold RC at hrc
    subst hrc
    exact ⟨mid2, hrev, happ, rfl⟩
  | b :: rest, top, mid, mid2, hrc, hrev, happ => by
    obtain ⟨m, h1, h2, h3⟩ := hrc
    exact ⟨m, h1, h2, RC_append_one a rest m mid mid2 h3 hrev happ⟩

/-- A prefix of a reverse chain is a reverse chain (to some intermediate
Data Model). -/
theorem RC_take (k : Nat) :
    ∀ (xs : List Action) (top bot : Animation), RC top xs bot →
      ∃ b2, RC top (xs.take k) b2 := by
  induction k with
  | zero => exact fun xs top bot _ => ⟨top, rfl⟩
  | succ k ih =>
    intro xs top bot hrc
    cases xs with
    | nil => exact ⟨bot, hrc⟩
    | cons a rest =>
      obtain ⟨mid, h1, h2, h3⟩ := hrc
      obtain ⟨b2, hb2⟩ := ih rest mid bot h3
      exact ⟨b2, mid, h1, h2, hb2⟩

/-- Extending a forward chain at the top. -/
theorem FC_append_one (a : Action) :
    ∀ (ys : List Action) (bot mid top : Animation), FC bot ys mid →
      a.applyAnim mid = some top → FC bot (ys ++ [a]) top
  | [], bot, mid, top, hfc, happ => by
    unfold FC at hfc
    subst hfc
    exact ⟨top, happ, rfl⟩
  | b :: rest, bot, mid, top, hfc, happ => by
    obtain ⟨m, h1, h2⟩ := hfc
    exact ⟨m, h1, FC_append_one a rest m mid top h2 happ⟩

/-- A reverse chain read bottom-up is a forward chain. -/
theorem RC_to_FC :
    ∀ (xs : List Action) (top bot : Animation), RC top xs bot →
      FC bot xs.reverse top
  | [], top, bot, hrc => by
    unfold RC at hrc
    subst hrc
    rfl
  | a :: rest, top, bot, hrc => by
    obtain ⟨mid, hrev, happ, h3⟩ := hrc
    simpa using FC_append_one a rest.reverse bot mid top (RC_to_FC rest mid bot h3) happ

/-- The element just after a prefix `A ++ C`. -/
theorem getElem?_sandwich {α : Type} (A C B : List α) (x : α) :
    (A ++ (C ++ [x]) ++ B)[A.length + C.length]? = some x := by
  have hsplit : A ++ (C ++ [x]) ++ B = (A ++ C) ++ ([x] ++ B) := by
    simp [List.append_assoc]
  rw [hsplit, List.getElem?_append_right (by simp), List.length_append]
  simp

/-- The element at the start of the middle segment. -/
theorem getElem?_after_prefix {α : Type} (A C B : List α) (x : α) :
    (A ++ (x :: C) ++ B)[A.length]? = some x := by
  have hsplit : A ++ (x :: C) ++ B = A ++ ((x :: C) ++ B) := by
    simp [List.append_assoc]
  rw [hsplit, List.getElem?_append_right (by simp)]
  simp

/-- Submitting a well-formed action list from a fully-forward state
appends it to the history, keeps depth `0`, keeps the state sane, and
produces a reverse chain back to the initial Data Model. -/
theorem do_actions_ok :
    ∀ (acts : List Action) (s : EditorState),
      s.undo_depth = 0 → WFseq s acts = true → CfOk s →
      ∃ t, s.do_actions acts = some t ∧
        t.action_list = s.action_list ++ acts ∧ t.undo_depth = 0 ∧ CfOk t ∧
        RC t.current_animation acts.reverse s.current_animation
  | [], s, h0, _, hcf => ⟨s, rfl, by simp, h0, hcf, rfl⟩
  | a :: as, s, h0, hw, hcf => by
    simp only [WFseq, Bool.and_eq_true] at hw
    obtain ⟨⟨hwa, hga⟩, hrest⟩ := hw
    obtain ⟨s1, hda, happ, hrev, hcf1, hlist1, hdep1, hsv1⟩ :=
      do_action_ok a s hwa hga hcf (by omega)
    simp only [hda] at hrest
    have hlist1b : s1.action_list = s.action_list ++ [a] := by
      rw [hlist1, h0]
      simp [List.take_length]
    obtain ⟨t, hrun, hlist, hdep, hcft, hrc⟩ := do_actions_ok as s1 hdep1 hrest hcf1
    refine ⟨t, ?_, ?_, hdep, hcft, ?_⟩
    · simp only [EditorState.do_actions, hda]
      exact hrun
    · rw [hlist, hlist1b]
      simp
    · have hext := RC_append_one a as.reverse t.current_animation s1.current_animation
        s.current_animation hrc hrev happ
      simpa using hext

/-- Submitting a nonempty well-formed action list from any sane state:
the undone suffix is discarded once, then the list is appended. -/
theorem do_actions_full (a : Action) (as : List Action) (s : EditorState)
    (hw : WFseq s (a :: as) = true) (hcf : CfOk s)
    (hinv : s.undo_depth ≤ s.action_list.length) :
    ∃ t, s.do_actions (a :: as) = some t ∧
      t.action_list =
        s.action_list.take (s.action_list.length - s.undo_depth) ++ (a :: as) ∧
      t.undo_depth = 0 ∧ CfOk t ∧
      RC t.current_animation (a :: as).reverse s.current_animation := by
  simp only [WFseq, Bool.and_eq_true] at hw
  obtain ⟨⟨hwa, hga⟩, hrest⟩ := hw
  obtain ⟨s1, hda, happ, hrev, hcf1, hlist1, hdep1, hsv1⟩ :=
    do_action_ok a s hwa hga hcf hinv
  simp only [hda] at hrest
  obtain ⟨t, hrun, hlist, hdep, hcft, hrc⟩ := do_actions_ok as s1 hdep1 hrest hcf1
  refine ⟨t, ?_, ?_, hdep, hcft, ?_⟩
  · simp only [EditorState.do_actions, hda]
    exact hrun
  · rw [hlist, hlist1]
    simp
  · have hext := RC_append_one a as.reverse t.current_animation s1.current_animation
      s.current_animation hrc hrev happ
    simpa using hext

/-- One `undo` step: with the target action sitting just before the
undone suffix and a successful Data-Model reversal, `undo` succeeds,
leaving the history untouched and deepening the undo depth. -/
theorem undo_ok (t : EditorState) (A C B : List Action) (a : Action) (mid : Animation)
    (hzip : t.action_list = A ++ (C ++ [a]) ++ B)
    (hB : B.length = t.undo_depth)
    (hrev : a.reverseAnim t.current_animation = some mid)
    (hcf : CfOk t) :
    ∃ u1, t.undo = some u1 ∧ u1.current_animation = mid ∧ CfOk u1 ∧
      u1.action_list = t.action_list ∧ u1.undo_depth = t.undo_depth + 1 ∧
      u1.has_saved = false := by
  have hlen : t.action_list.length = A.length + C.length + 1 + t.undo_depth := by
    rw [hzip]
    simp
    omega
  have hnle : ¬ (t.action_list.length ≤ t.undo_depth) := by omega
  have hgetq : t.action_list[t.action_list.length - t.undo_depth - 1]? = some a := by
    have hidx : t.action_list.length - t.undo_depth - 1 = A.length + C.length := by omega
    rw [hidx, hzip]
    exact getElem?_sandwich A C B a
  have hget : t.action_list.get ⟨t.action_list.length - t.undo_depth - 1, by omega⟩ = a := by
    rw [List.get_eq_getElem]
    have hlt : t.action_list.length - t.undo_depth - 1 < t.action_list.length := by omega
    have h2 := List.getElem?_eq_getElem hlt
    rw [hgetq] at h2
    injection h2 with h3
    exact h3.symm
  obtain ⟨t2, hrevs, hanim2, hcf2, hl2, hd2, hs2⟩ := reverse_ok a t mid hrev hcf
  refine ⟨{ t2 with undo_depth := t.undo_depth + 1, has_saved := false }, ?_,
    hanim2, hcf2, by rw [hl2], rfl, rfl⟩
  simp only [EditorState.undo]
  rw [dif_neg hnle]
  rw [hget]
  simp only [hrevs]

/-- Undoing along a reverse chain: the history is untouched, the undo
depth grows by the chain length, and the Data Model walks down to the
bottom of the chain. -/
theorem undo_iter_chain :
    ∀ (xs : List Action) (t : EditorState) (bot : Animation) (A B : List Action),
      RC t.current_animation xs bot →
      t.action_list = A ++ xs.reverse ++ B →
      B.length = t.undo_depth →
      CfOk t →
      ∃ u, undo_iter xs.length t = some u ∧ u.current_animation = bot ∧
        u.action_list = t.action_list ∧ u.undo_depth = t.undo_depth + xs.length ∧
        CfOk u
  | [], t, bot, A, B, hrc, hzip, hB, hcf => ⟨t, rfl, hrc, rfl, by simp, hcf⟩
  | a :: rest, t, bot, A, B, hrc, hzip, hB, hcf => by
    obtain ⟨mid, hrev, happ, hrc2⟩ := hrc
    have hzip2 : t.action_list = A ++ (rest.reverse ++ [a]) ++ B := by
      rw [hzip]
      simp
    obtain ⟨u1, hundo, hanim1, hcf1, hlist1, hdep1, _⟩ :=
      undo_ok t A rest.reverse B a mid hzip2 hB hrev hcf
    have hzip3 : u1.action_list = A ++ rest.reverse ++ (a :: B) := by
      rw [hlist1, hzip2]
      simp
    have hB3 : (a :: B).length = u1.undo_depth := by
      simp [hdep1, ← hB]
    have hrcu : RC u1.current_animation rest bot := by
      rw [hanim1]
      exact hrc2
    obtain ⟨u, hiter, huanim, hulist, hudep, hucf⟩ :=
      undo_iter_chain rest u1 bot A (a :: B) hrcu hzip3 hB3 hcf1
    refine ⟨u, ?_, huanim, by rw [hulist, hlist1], ?_, hucf⟩
    · simp only [undo_iter, hundo]
      exact hiter
    · rw [hudep, hdep1]
      simp
      omega

/-- One `redo` step: with the target action sitting at the start of the
undone suffix and a successful Data-Model application, `redo` succeeds. -/
theorem redo_ok (u : EditorState) (A C B : List Action) (a : Action) (mid : Animation)
    (hzip : u.action_list = A ++ (a :: C) ++ B)
    (hd : u.undo_depth = C.length + 1 + B.length)
    (happ : a.applyAnim u.current_animation = some mid)
    (hcf : CfOk u) :
    ∃ w1, u.redo = some w1 ∧ w1.current_animation = mid ∧ CfOk w1 ∧
      w1.action_list = u.action_list ∧ w1.undo_depth = u.undo_depth - 1 ∧
      w1.has_saved = false := by
  have hlen : u.action_list.length = A.length + C.length + 1 + B.length := by
    rw [hzip]
    simp
    omega
  have hne0 : ¬ (u.undo_depth = 0) := by omega
  have hle : u.undo_depth ≤ u.action_list.length := by omega
  have hgetq : u.action_list[u.action_list.length - u.undo_depth]? = some a := by
    have hidx : u.action_list.length - u.undo_depth = A.length := by omega
    rw [hidx, hzip]
    exact getElem?_after_prefix A C B a
  have hget : u.action_list.get ⟨u.action_list.length - u.undo_depth, by omega⟩ = a := by
    rw [List.get_eq_getElem]
    have hlt : u.action_list.length - u.undo_depth < u.action_list.length := by omega
    have h2 := List.getElem?_eq_getElem hlt
    rw [hgetq] at h2
    injection h2 with h3
    exact h3.symm
  obtain ⟨s2, happly, hanim2, hcf2, hl2, hd2, hs2⟩ := apply_ok_of_applyAnim a u mid happ hcf
  refine ⟨{ s2 with undo_depth := u.undo_depth - 1, has_saved := false }, ?_,
    hanim2, hcf2, by rw [hl2], rfl, rfl⟩
  simp only [EditorState.redo]
  rw [dif_neg hne0, dif_pos hle]
  rw [hget]
  simp only [happly]

/-- Redoing along a forward chain: the history is untouched, the undo
depth shrinks by the chain length, and the Data Model walks up to the top
of the chain. -/
theorem redo_iter_chain :
    ∀ (ys : List Action) (u : EditorState) (top : Animation) (A B : List Action),
      FC u.current_animation ys top →
      u.action_list = A ++ ys ++ B →
      u.undo_depth = ys.length + B.length →
      CfOk u →
      ∃ w, redo_iter ys.length u = some w ∧ w.current_animation = top ∧
        w.action_list = u.action_list ∧ w.undo_depth = B.length ∧ CfOk w
  | [], u, top, A, B, hfc, hzip, hd, hcf => ⟨u, rfl, hfc, rfl, by simpa using hd, hcf⟩
  | a :: rest, u, top, A, B, hfc, hzip, hd, hcf => by
    obtain ⟨mid, happ, hfc2⟩ := hfc
    obtain ⟨w1, hredo, hanim1, hcf1, hlist1, hdep1, _⟩ :=
      redo_ok u A rest B a mid hzip (by simpa using hd) happ hcf
    have hzip2 : w1.action_list = (A ++ [a]) ++ rest ++ B := by
      rw [hlist1, hzip]
      simp
    have hd2 : w1.undo_depth = rest.length + B.length := by
      rw [hdep1, hd]
      simp
    have hfcu : FC w1.current_animation rest top := by
      rw [hanim1]
      exact hfc2
    obtain ⟨w, hiter, hwanim, hwlist, hwdep, hwcf⟩ :=
      redo_iter_chain rest w1 top (A ++ [a]) B hfcu hzip2 hd2 hcf1
    refine ⟨w, ?_, hwanim, by rw [hwlist, hlist1], hwdep, hwcf⟩
    simp only [redo_iter, hredo]
    exact hiter

/-! ## Claim theorems -/

/-- C1 (amended): for every sequence of actions, each of which warrants
recording and is generated against the Data Model state it is applied to,
submitted via `do_action` from any editor state satisfying the engine
invariants (undo depth within history, current frame in range or zero),
following the n applications with n `undo` calls restores the Data Model
(timeline frames and hitbox definitions) exactly. -/
theorem c1_undo_restores (acts : List Action) (s : EditorState)
    (hwf : WFseq s acts = true) (hcf : CfOk s)
    (hinv : s.undo_depth ≤ s.action_list.length) :
    ∃ t u, s.do_actions acts = some t ∧ undo_iter acts.length t = some u ∧
      u.current_animation = s.current_animation := by
  cases acts with
  | nil => exact ⟨s, s, rfl, rfl, rfl⟩
  | cons a as =>
    obtain ⟨t, hrun, hlist, hdep, hcft, hrc⟩ := do_actions_full a as s hwf hcf hinv
    obtain ⟨u, hiter, huanim, _, _, _⟩ :=
      undo_iter_chain (a :: as).reverse t s.current_animation
        (s.action_list.take (s.action_list.length - s.undo_depth)) []
        hrc (by rw [hlist]; simp) (by simp [hdep]) hcft
    refine ⟨t, u, hrun, ?_, huanim⟩
    simpa using hiter

/-- C1 counterexample: the claim as stated (no "warrants recording"
restriction) fails.  From a fresh document, record `AddFrame 3`; then
submit the no-op `MoveSprite 0 0 0` (generated against the state: `from`
equals the current offset) and call `undo` once.  The single undo
reverses the *earlier* `AddFrame` instead of the no-op, so the Data Model
does not return to its state before the no-op was applied. -/
theorem c1_counterexample :
    EditorState.new.do_action (.AddFrame 3) = some exHist1 ∧
    (Action.MoveSprite 0 ⟨0, 0⟩ ⟨0, 0⟩).genAgainst exHist1.current_animation = true ∧
    ((exHist1.do_action (.MoveSprite 0 ⟨0, 0⟩ ⟨0, 0⟩)).bind EditorState.undo) =
      some exDirtyUndone ∧
    exDirtyUndone.current_animation ≠ exHist1.current_animation := by
  refine ⟨by decide, by decide, by decide, by decide⟩

/-- C1 witness: two effective actions on a fresh document, then two
undos, restore the empty Data Model. -/
theorem c1_undo_restores_witness :
    WFseq EditorState.new exActs = true ∧ CfOk EditorState.new ∧
    EditorState.new.undo_depth ≤ EditorState.new.action_list.length ∧
    (∃ t u, EditorState.new.do_actions exActs = some t ∧
      undo_iter exActs.length t = some u ∧
      u.current_animation = EditorState.new.current_animation) :=
  ⟨by decide, by decide, by decide,
    c1_undo_restores exActs EditorState.new (by decide) (by decide) (by decide)⟩

/-- C2 (amended): for every sequence of actions each of which warrants
recording and is generated against the state it is applied to, submitted
via `do_action` from a state satisfying the engine invariants, `k ≤ n`
undos followed by `k` redos leave the Data Model equal to its state after
all `n` actions. -/
theorem c2_redo_replays (acts : List Action) (k : Nat) (s : EditorState)
    (hk : k ≤ acts.length) (hwf : WFseq s acts = true) (hcf : CfOk s)
    (hinv : s.undo_depth ≤ s.action_list.length) :
    ∃ t u w, s.do_actions acts = some t ∧ undo_iter k t = some u ∧
      redo_iter k u = some w ∧ w.current_animation = t.current_animation := by
  cases acts with
  | nil =>
    have hk0 : k = 0 := Nat.le_zero.mp hk
    subst hk0
    exact ⟨s, s, s, rfl, rfl, rfl, rfl⟩
  | cons a as =>
    simp only [List.length_cons] at hk
    obtain ⟨t, hrun, hlist, hdep, hcft, hrc⟩ := do_actions_full a as s hwf hcf hinv
    obtain ⟨b2, hrc2⟩ := RC_take k _ _ _ hrc
    have hxslen : ((a :: as).reverse.take k).length = k := by
      simp only [List.length_take, List.length_reverse, List.length_cons]
      omega
    have hxsrev : ((a :: as).reverse.take k).reverse =
        (a :: as).drop ((a :: as).length - k) := by
      rw [List.take_reverse, List.reverse_reverse]
    have hzipU : t.action_list =
        (s.action_list.take (s.action_list.length - s.undo_depth) ++
          (a :: as).take ((a :: as).length - k)) ++
        ((a :: as).reverse.take k).reverse ++ [] := by
      rw [hlist, hxsrev]
      simp [List.append_assoc, List.take_append_drop]
    obtain ⟨u, hiterU, huanim, hulist, hudep, hucf⟩ :=
      undo_iter_chain ((a :: as).reverse.take k) t b2
        (s.action_list.take (s.action_list.length - s.undo_depth) ++
          (a :: as).take ((a :: as).length - k)) []
        hrc2 hzipU (by simp [hdep]) hcft
    have hfc : FC u.current_animation ((a :: as).drop ((a :: as).length - k))
        t.current_animation := by
      rw [huanim, ← hxsrev]
      exact RC_to_FC _ _ _ hrc2
    have hdroplen : ((a :: as).drop ((a :: as).length - k)).length = k := by
      simp only [List.length_drop, List.length_cons]
      omega
    have hzipR : u.action_list =
        (s.action_list.take (s.action_list.length - s.undo_depth) ++
          (a :: as).take ((a :: as).length - k)) ++
        ((a :: as).drop ((a :: as).length - k)) ++ [] := by
      rw [hulist, hzipU, hxsrev]
    have hdR : u.undo_depth = ((a :: as).drop ((a :: as).length - k)).length + ([] : List Action).length := by
      rw [hudep, hdep, hxslen, hdroplen]
      simp
    obtain ⟨w, hiterR, hwanim, _, _, _⟩ :=
      redo_iter_chain ((a :: as).drop ((a :: as).length - k)) u t.current_animation
        (s.action_list.take (s.action_list.length - s.undo_depth) ++
          (a :: as).take ((a :: as).length - k)) []
        hfc hzipR hdR hucf
    refine ⟨t, u, w, hrun, ?_, ?_, hwanim⟩
    · rw [← hxslen]
      exact hiterU
    · rw [← hdroplen]
      exact hiterR

/-- C2 counterexample: the claim as stated fails for a non-warranting
action submitted while earlier history is undone.  `exUndone1` is reached
by recording `ChangeDelay 0 5 7` and undoing it (delay back to 5,
`undo_depth = 1`).  Submitting the no-op `MoveSprite 0 0 0` (generated
against the state) changes nothing; the subsequent `undo` is a silent
no-op at the backward edge, but the `redo` then re-applies the *old*
delay edit, so the Data Model ends with delay 7 instead of the claimed
post-sequence state (delay 5). -/
theorem c2_counterexample :
    ((exPreC2.do_action (.ChangeDelay 0 5 7)).bind EditorState.undo) = some exUndone1 ∧
    (Action.MoveSprite 0 ⟨0, 0⟩ ⟨0, 0⟩).genAgainst exUndone1.current_animation = true ∧
    exUndone1.do_action (.MoveSprite 0 ⟨0, 0⟩ ⟨0, 0⟩) = some exUndone1 ∧
    (((exUndone1.do_action (.MoveSprite 0 ⟨0, 0⟩ ⟨0, 0⟩)).bind
        EditorState.undo).bind EditorState.redo) = some exC2End ∧
    exC2End.current_animation ≠ exUndone1.current_animation := by
  refine ⟨by decide, by decide, by decide, by decide, by decide⟩

/-- C2 witness: two effective actions from a fresh document, one undo,
one redo, back to the post-sequence Data Model. -/
theorem c2_redo_replays_witness :
    1 ≤ exActs.length ∧ WFseq EditorState.new exActs = true ∧
    (∃ t u w, EditorState.new.do_actions exActs = some t ∧ undo_iter 1 t = some u ∧
      redo_iter 1 u = some w ∧ w.current_animation = t.current_animation) :=
  ⟨by decide, by decide,
    c2_redo_replays exActs 1 EditorState.new (by decide) (by decide) (by decide) (by decide)⟩

/-- C5: submitting a warranting action after k undo steps discards
exactly the last k history entries, resets the undo depth to zero,
appends the new action, and leaves a state on which `redo` is a no-op. -/
theorem c5_truncates_redo_branch (s : EditorState) (a : Action)
    (hw : a.warrants_action = true) (hg : a.genAgainst s.current_animation = true)
    (hcf : CfOk s) (hinv : s.undo_depth ≤ s.action_list.length) :
    ∃ s2, s.do_action a = some s2 ∧
      s2.action_list =
        s.action_list.take (s.action_list.length - s.undo_depth) ++ [a] ∧
      s2.undo_depth = 0 ∧ s2.redo = some s2 := by
  obtain ⟨s2, hda, _, _, _, hlist, hdep, _⟩ := do_action_ok a s hw hg hcf hinv
  refine ⟨s2, hda, hlist, hdep, ?_⟩
  simp [EditorState.redo, hdep]

/-- C5 witness: submitting an effective delay edit on `exUndone1`
(depth 1, one recorded entry) discards that entry and leaves redo a no-op. -/
theorem c5_truncates_redo_branch_witness :
    (Action.ChangeDelay 0 5 9).warrants_action = true ∧
    (Action.ChangeDelay 0 5 9).genAgainst exUndone1.current_animation = true ∧
    CfOk exUndone1 ∧ exUndone1.undo_depth ≤ exUndone1.action_list.length ∧
    (∃ s2, exUndone1.do_action (.ChangeDelay 0 5 9) = some s2 ∧
      s2.action_list = exUndone1.action_list.take
        (exUndone1.action_list.length - exUndone1.undo_depth) ++ [.ChangeDelay 0 5 9] ∧
      s2.undo_depth = 0 ∧ s2.redo = some s2) :=
  ⟨by decide, by decide, by decide, by decide,
    c5_truncates_redo_branch exUndone1 (.ChangeDelay 0 5 9)
      (by decide) (by decide) (by decide) (by decide)⟩

/-- C6: benign no-ops mutate nothing: value-writing actions with
`from = to` (and `SwapFrames` with `a = b`) pass through `do_action`
without any state change, `undo` at the backward edge and `redo` at the
forward edge return the state unchanged (history, Data Model, undo depth
and dirty flag included). -/
theorem c6_benign_noops :
    (∀ (s : EditorState) (i : Nat) (v : Vec2),
      s.do_action (.MoveSprite i v v) = some s) ∧
    (∀ (s : EditorState) (i id : Nat) (v : Vec2),
      s.do_action (.MoveHitbox i id v v) = some s) ∧
    (∀ (s : EditorState) (i id : Nat) (v : Vec2),
      s.do_action (.ResizeHitbox i id v v) = some s) ∧
    (∀ (s : EditorState) (i d : Nat),
      s.do_action (.ChangeDelay i d d) = some s) ∧
    (∀ (s : EditorState) (i : Nat) (v : Vec2),
      s.do_action (.SetMotionOffset i v v) = some s) ∧
    (∀ (s : EditorState) (i : Nat),
      s.do_action (.SwapFrames i i) = some s) ∧
    (∀ s : EditorState, s.undo_depth = s.action_list.length → s.undo = some s) ∧
    (∀ s : EditorState, s.undo_depth = 0 → s.redo = some s) := by
  refine ⟨?_, ?_, ?_, ?_, ?_, ?_, ?_, ?_⟩
  · intro s i v
    simp [EditorState.do_action, Action.warrants_action]
  · intro s i id v
    simp [EditorState.do_action, Action.warrants_action]
  · intro s i id v
    simp [EditorState.do_action, Action.warrants_action]
  · intro s i d
    simp [EditorState.do_action, Action.warrants_action]
  · intro s i v
    simp [EditorState.do_action, Action.warrants_action]
  · intro s i
    simp [EditorState.do_action, Action.warrants_action]
  · intro s h
    simp [EditorState.undo, h]
  · intro s h
    simp [EditorState.redo, h]

/-- C6 witness. -/
theorem c6_benign_noops_witness :
    EditorState.new.undo_depth = EditorState.new.action_list.length ∧
    EditorState.new.undo_depth = 0 ∧
    EditorState.new.do_action (.MoveSprite 0 ⟨1, 2⟩ ⟨1, 2⟩) = some EditorState.new ∧
    EditorState.new.undo = some EditorState.new ∧
    EditorState.new.redo = some EditorState.new :=
  ⟨by decide, by decide, c6_benign_noops.1 EditorState.new 0 ⟨1, 2⟩,
    c6_benign_noops.2.2.2.2.2.2.1 EditorState.new (by decide),
    c6_benign_noops.2.2.2.2.2.2.2 EditorState.new (by decide)⟩

/-- C8 (amended): applying `AddFrame` appends a frame with the given
image, delay 1, zero anchor and root-motion offsets, and an empty hitbox
map — and never touches the current frame, not even when the selection is
out of range (the clamp exists only in `AddFrame`'s reverse). -/
theorem c8_addframe_appends (s : EditorState) (img : Nat) :
    (Action.AddFrame img).apply s = some { s with
      current_animation := s.current_animation.withFrames
        (s.current_animation.timeline.frames ++ [⟨img, ⟨0, 0⟩, ⟨0, 0⟩, 1, []⟩]) } := by
  simp [Action.apply, Action.applyAnim, Action.applyCf]

/-- C8 counterexample: the claim's "clamps down when current-frame was
out of range" is false.  Applying `AddFrame` at an empty timeline with
current-frame 5 leaves current-frame at 5 (still out of range for the
one-frame result), with no clamping. -/
theorem c8_counterexample :
    (Action.AddFrame 7).apply exEmptyCf5 = some exAddedCf5 ∧
    exAddedCf5.current_frame = 5 ∧
    exAddedCf5.current_animation.timeline.frames.length = 1 := by
  refine ⟨by decide, by decide, by decide⟩

/-- C9 (amended): the dirty flag is set by every effective `do_action`,
`undo` and `redo`; none of the three ever cleans it; it is cleared by a
successful Save — and also by loading a file and by resetting to a new
document. -/
theorem c9_dirty_flag :
    (∀ (a : Action) (s s2 : EditorState), a.warrants_action = true →
      s.do_action a = some s2 → s2.has_saved = false) ∧
    (∀ (s s2 : EditorState), s.undo_depth < s.action_list.length →
      s.undo = some s2 → s2.has_saved = false) ∧
    (∀ (s s2 : EditorState), s.undo_depth ≠ 0 → s.redo = some s2 →
      s2.has_saved = false) ∧
    (∀ (a : Action) (s s2 : EditorState), s.has_saved = false →
      s.do_action a = some s2 → s2.has_saved = false) ∧
    (∀ (s s2 : EditorState), s.has_saved = false → s.undo = some s2 →
      s2.has_saved = false) ∧
    (∀ (s s2 : EditorState), s.has_saved = false → s.redo = some s2 →
      s2.has_saved = false) ∧
    (∀ (s : EditorState) (resolve : Nat → CImage) (s2 : EditorState)
      (art : AnimationFileData),
      s.save_to resolve = some (s2, art) → s2.has_saved = true) ∧
    (∀ (s : EditorState) (anim : Animation), (s.load anim).has_saved = true) ∧
    (∀ s : EditorState, s.newDocument.has_saved = true) := by
  refine ⟨?_, ?_, ?_, ?_, ?_, ?_, ?_, fun _ _ => rfl, fun _ => rfl⟩
  · intro a s s2 hw hda
    simp only [EditorState.do_action, hw, if_true] at hda
    split at hda
    · split at hda
      · exact absurd hda (by simp)
      · injection hda with h2
        rw [← h2]
    · exact absurd hda (by simp)
  · intro s s2 hlt hu
    simp only [EditorState.undo] at hu
    rw [dif_neg (by omega)] at hu
    split at hu
    · exact absurd hu (by simp)
    · injection hu with h2
      rw [← h2]
  · intro s s2 hne hr
    simp only [EditorState.redo] at hr
    rw [dif_neg hne] at hr
    split at hr
    · split at hr
      · exact absurd hr (by simp)
      · injection hr with h2
        rw [← h2]
    · exact absurd hr (by simp)
  · intro a s s2 hdirty hda
    simp only [EditorState.do_action] at hda
    split at hda
    · split at hda
      · split at hda
        · exact absurd hda (by simp)
        · injection hda with h2
          rw [← h2]
      · exact absurd hda (by simp)
    · injection hda with h2
      rw [← h2]
      exact hdirty
  · intro s s2 hdirty hu
    simp only [EditorState.undo] at hu
    split at hu
    · injection hu with h2
      rw [← h2]
      exact hdirty
    · split at hu
      · exact absurd hu (by simp)
      · injection hu with h2
        rw [← h2]
  · intro s s2 hdirty hr
    simp only [EditorState.redo] at hr
    split at hr
    · injection hr with h2
      rw [← h2]
      exact hdirty
    · split at hr
      · split at hr
        · exact absurd hr (by simp)
        · injection hr with h2
          rw [← h2]
      · exact absurd hr (by simp)
  · intro s resolve s2 art hsv
    simp only [EditorState.save_to] at hsv
    split at hsv
    · exact absurd hsv (by simp)
    · injection hsv with h2
      have := congrArg Prod.fst h2
      simp at this
      rw [← this]

/-- C9 counterexample: loading a file transitions the flag from dirty to
clean although no Save happened (`EditorState::load`, main.rs:616 sets
`has_saved = true`; the "New document" handler does the same). -/
theorem c9_counterexample :
    exDirtyUndone.has_saved = false ∧
    (exDirtyUndone.load Animation.new).has_saved = true := ⟨rfl, rfl⟩

/-- C9 witness. -/
theorem c9_dirty_flag_witness :
    (Action.AddFrame 3).warrants_action = true ∧
    (∃ s2, EditorState.new.do_action (.AddFrame 3) = some s2 ∧ s2.has_saved = false) ∧
    exHist1.has_saved = false ∧
    (∃ s2, exHist1.undo = some s2 ∧ s2.has_saved = false) :=
  ⟨by decide, ⟨exHist1, by decide,
      c9_dirty_flag.1 (.AddFrame 3) EditorState.new exHist1 (by decide) (by decide)⟩,
    by decide, ⟨exDirtyUndone, by decide,
      c9_dirty_flag.2.1 exHist1 exDirtyUndone (by decide) (by decide)⟩⟩

/-- C10: the undo-depth invariant is broken by `load`.  `exDirtyUndone`
(reached from a fresh document by `do_action(AddFrame 3)` then `undo`)
satisfies `undo_depth ≤ history length`; after loading a file the history
is cleared but `undo_depth` stays 1, violating the invariant, so the next
`do_action` hits the `pop().unwrap()` panic and `redo` the
`len - undo_depth` underflow (both modelled as `none`). -/
theorem c10_load_breaks_invariant :
    ((EditorState.new.do_action (.AddFrame 3)).bind EditorState.undo) =
      some exDirtyUndone ∧
    exDirtyUndone.undo_depth ≤ exDirtyUndone.action_list.length ∧
    (exDirtyUndone.load Animation.new).undo_depth = 1 ∧
    (exDirtyUndone.load Animation.new).action_list.length = 0 ∧
    (exDirtyUndone.load Animation.new).do_action (.AddFrame 4) = none ∧
    (exDirtyUndone.load Animation.new).redo = none := by
  refine ⟨by decide, by decide, by decide, by decide, by decide, by decide⟩

/-- C7 (amended): applying `RemoveFrame` at index `i` decrements the
current frame when it lies beyond `i` and clamps it to the new last valid
index when it now exceeds it (frame count nonzero); removing the last
frame when it is current moves the current frame to the new `len - 1`
(0 when the timeline empties).  Undoing that removal restores the prior
current-frame value only in the one-frame case; otherwise the current
frame stays at the clamped value (one less than before the removal). -/
theorem c7_remove_frame_cf :
    (∀ (s : EditorState) (f : Frame) (i : Nat),
      s.current_animation.timeline.frames[i]? = some f →
      s.current_frame ≤ s.current_animation.timeline.frames.length →
      ∃ s2, (Action.RemoveFrame f i).apply s = some s2 ∧
        s2.current_animation =
          s.current_animation.withFrames (s.current_animation.timeline.frames.eraseIdx i) ∧
        s2.current_frame =
          (if s.current_animation.timeline.frames.length - 1 ≠ 0 ∧
              (if s.current_frame > i then s.current_frame - 1 else s.current_frame) >
                s.current_animation.timeline.frames.length - 1 - 1
           then s.current_animation.timeline.frames.length - 1 - 1
           else if s.current_frame > i then s.current_frame - 1 else s.current_frame)) ∧
    (∀ (s : EditorState) (f : Frame) (L : Nat),
      L = s.current_animation.timeline.frames.length → 0 < L →
      s.current_frame = L - 1 →
      s.current_animation.timeline.frames[L - 1]? = some f →
      ∃ s2 s3, (Action.RemoveFrame f (L - 1)).apply s = some s2 ∧
        s2.current_frame = (if L = 1 then 0 else L - 2) ∧
        (Action.RemoveFrame f (L - 1)).reverse s2 = some s3 ∧
        s3.current_animation = s.current_animation ∧
        (s3.current_frame = s.current_frame ↔ L = 1)) := by
  have part1 : ∀ (s : EditorState) (f : Frame) (i : Nat),
      s.current_animation.timeline.frames[i]? = some f →
      s.current_frame ≤ s.current_animation.timeline.frames.length →
      ∃ s2, (Action.RemoveFrame f i).apply s = some s2 ∧
        s2.current_animation =
          s.current_animation.withFrames (s.current_animation.timeline.frames.eraseIdx i) ∧
        s2.current_frame =
          (if s.current_animation.timeline.frames.length - 1 ≠ 0 ∧
              (if s.current_frame > i then s.current_frame - 1 else s.current_frame) >
                s.current_animation.timeline.frames.length - 1 - 1
           then s.current_animation.timeline.frames.length - 1 - 1
           else if s.current_frame > i then s.current_frame - 1 else s.current_frame) := by
    intro s f i hf hcfle
    have hidx : i < s.current_animation.timeline.frames.length := lt_length_of_getElem? hf
    have happ : (Action.RemoveFrame f i).applyAnim s.current_animation =
        some (s.current_animation.withFrames
          (s.current_animation.timeline.frames.eraseIdx i)) := by
      simp [Action.applyAnim, hf]
    have hlen1 : (s.current_animation.timeline.frames.eraseIdx i).length =
        s.current_animation.timeline.frames.length - 1 := by
      rw [List.length_eraseIdx]
      simp [hidx]
    have hkey : ∃ cf2, (Action.RemoveFrame f i).applyCf s.current_frame
        (s.current_animation.timeline.frames.eraseIdx i).length = some cf2 ∧
        cf2 = (if s.current_animation.timeline.frames.length - 1 ≠ 0 ∧
              (if s.current_frame > i then s.current_frame - 1 else s.current_frame) >
                s.current_animation.timeline.frames.length - 1 - 1
           then s.current_animation.timeline.frames.length - 1 - 1
           else if s.current_frame > i then s.current_frame - 1 else s.current_frame) := by
      simp only [Action.applyCf]
      by_cases hic : i < s.current_frame
      · simp only [if_pos hic]
        by_cases h1 : s.current_frame - 1 ≥ (s.current_animation.timeline.frames.eraseIdx i).length ∧
            s.current_frame - 1 ≠ 0
        · rw [if_pos h1, if_neg (by omega)]
          exact ⟨_, rfl, by split_ifs <;> omega⟩
        · rw [if_neg h1]
          exact ⟨_, rfl, by split_ifs <;> omega⟩
      · simp only [if_neg hic]
        by_cases h1 : s.current_frame ≥ (s.current_animation.timeline.frames.eraseIdx i).length ∧
            s.current_frame ≠ 0
        · rw [if_pos h1, if_neg (by omega)]
          exact ⟨_, rfl, by split_ifs <;> omega⟩
        · rw [if_neg h1]
          exact ⟨_, rfl, by split_ifs <;> omega⟩
    obtain ⟨cf2, hcf2, hval⟩ := hkey
    refine ⟨{ s with
        current_animation := s.current_animation.withFrames
          (s.current_animation.timeline.frames.eraseIdx i),
        current_frame := cf2 }, ?_, rfl, hval⟩
    simp only [Action.apply, happ, withFrames_frames, hcf2]
  refine ⟨part1, ?_⟩
  intro s f L hL hLpos hcf hf
  obtain ⟨s2, happly, hanim2, hcf2⟩ := part1 s f (L - 1) hf (by omega)
  have hidx : L - 1 < s.current_animation.timeline.frames.length := lt_length_of_getElem? hf
  have hlen1 : (s.current_animation.timeline.frames.eraseIdx (L - 1)).length = L - 1 := by
    rw [List.length_eraseIdx]
    simp [hidx]
    omega
  have hcf2v : s2.current_frame = (if L = 1 then 0 else L - 2) := by
    rw [hcf2]
    split_ifs <;> omega
  have hrevanim : (Action.RemoveFrame f (L - 1)).reverseAnim s2.current_animation =
      some s.current_animation := by
    rw [hanim2]
    simp only [Action.reverseAnim, withFrames_frames]
    rw [if_pos (by omega)]
    rw [insertIdx_eraseIdx_self _ _ _ hf]
    rfl
  have hrevcf : (Action.RemoveFrame f (L - 1)).reverseCf s2.current_frame
      s.current_animation.timeline.frames.length =
      some (if s2.current_frame ≥ L - 1 ∧ s.current_animation.timeline.frames.length ≠ 1
        then s2.current_frame + 1 else s2.current_frame) := by
    simp only [Action.reverseCf]
    split_ifs <;> rfl
  refine ⟨s2, { s2 with
      current_animation := s.current_animation,
      current_frame := (if s2.current_frame ≥ L - 1 ∧
          s.current_animation.timeline.frames.length ≠ 1
        then s2.current_frame + 1 else s2.current_frame) }, happly, hcf2v, ?_, rfl, ?_⟩
  · simp only [Action.reverse, hrevanim, hrevcf]
  · simp only [hcf2v, hcf]
    split_ifs <;> omega

/-- C7 counterexample: the claim's "undoing that removal restores the
prior current-frame value" is false.  With two frames and the current
frame being the last (index 1), removing it clamps the current frame to
0; undoing re-inserts the frame but the reverse increments only when
`current_frame ≥ index`, which fails (0 < 1), so the current frame stays
0 instead of returning to 1. -/
theorem c7_counterexample :
    ((Action.RemoveFrame exFrameB 1).apply exTwoFrames).bind
      ((Action.RemoveFrame exFrameB 1).reverse) = some exTwoRestored ∧
    exTwoRestored.current_animation = exTwoFrames.current_animation ∧
    exTwoFrames.current_frame = 1 ∧ exTwoRestored.current_frame = 0 := by
  refine ⟨by decide, by decide, by decide, by decide⟩

/-- C7 witness: the amended statement at the concrete two-frame state. -/
theorem c7_remove_frame_cf_witness :
    exTwoFrames.current_animation.timeline.frames[1]? = some exFrameB ∧
    (2 : Nat) = exTwoFrames.current_animation.timeline.frames.length ∧
    (∃ s2 s3, (Action.RemoveFrame exFrameB 1).apply exTwoFrames = some s2 ∧
      s2.current_frame = (if (2 : Nat) = 1 then 0 else 2 - 2) ∧
      (Action.RemoveFrame exFrameB 1).reverse s2 = some s3 ∧
      s3.current_animation = exTwoFrames.current_animation ∧
      (s3.current_frame = exTwoFrames.current_frame ↔ (2 : Nat) = 1)) :=
  ⟨by decide, by decide,
    c7_remove_frame_cf.2 exTwoFrames exFrameB 2 (by decide) (by decide)
      (by decide) (by decide)⟩

/-- The column-search loop keeps its accumulator in `[1, n]`. -/
theorem colsLoop_bounds (n bbw bbh : Nat) :
    ∀ c cols, c ≤ n → 1 ≤ cols → cols ≤ n →
      1 ≤ colsLoop n bbw bbh c cols ∧ colsLoop n bbw bbh c cols ≤ n
  | 0, cols, _, h1, h2 => ⟨h1, h2⟩
  | c + 1, cols, hc, h1, h2 => by
    unfold colsLoop
    dsimp only
    split
    · exact ⟨h1, h2⟩
    · exact colsLoop_bounds n bbw bbh c (c + 1) (by omega) (by omega) (by omega)

/-- The chosen column count lies in `[1, n]`. -/
theorem chooseCols_bounds (n bbw bbh : Nat) (hn : 1 ≤ n) :
    1 ≤ chooseCols n bbw bbh ∧ chooseCols n bbw bbh ≤ n :=
  colsLoop_bounds n bbw bbh n n (Nat.le_refl n) hn (Nat.le_refl n)

/-- `divCeil` rounds up: `n ≤ divCeil n c * c` for positive `c`. -/
theorem le_divCeil_mul (n c : Nat) (hc : 0 < c) : n ≤ divCeil n c * c := by
  unfold divCeil
  by_cases h : n % c > 0 ∧ c > 0
  · rw [if_pos h]
    have h1 := Nat.div_add_mod n c
    have h2 : n % c ≤ c := Nat.le_of_lt (Nat.mod_lt n hc)
    have h3 : (n / c + 1) * c = n / c * c + c := by ring
    have h4 : n / c * c = c * (n / c) := Nat.mul_comm _ _
    omega
  · rw [if_neg h]
    have hmod : n % c = 0 := by omega
    have h1 := Nat.div_add_mod n c
    have h4 : n / c * c = c * (n / c) := Nat.mul_comm _ _
    omega

/-- Any index below `n` lands in a row below `divCeil n c`. -/
theorem div_lt_divCeil (n c k : Nat) (hc : 0 < c) (hk : k < n) :
    k / c < divCeil n c := by
  have h1 : n ≤ divCeil n c * c := le_divCeil_mul n c hc
  have h2 : k < divCeil n c * c := by omega
  exact (Nat.div_lt_iff_lt_mul hc).mpr h2

/-- Loop invariant for the column search under a feasible single-row
layout: scanning downward, the accumulator is the smallest candidate of
the all-feasible suffix examined so far. -/
theorem colsLoop_invariant (n bbw bbh : Nat) (hn : 1 ≤ n)
    (hPn : divCeil n n * bbh ≤ n * bbw) :
    ∀ c cols, c ≤ n → cols = min (c + 1) n →
      (∀ c2, c < c2 → c2 ≤ n → divCeil n c2 * bbh ≤ c2 * bbw) →
      1 ≤ colsLoop n bbw bbh c cols ∧ colsLoop n bbw bbh c cols ≤ n ∧
      (∀ c2, colsLoop n bbw bbh c cols ≤ c2 → c2 ≤ n →
        divCeil n c2 * bbh ≤ c2 * bbw) ∧
      (colsLoop n bbw bbh c cols = 1 ∨
        ¬ (divCeil n (colsLoop n bbw bbh c cols - 1) * bbh ≤
          (colsLoop n bbw bbh c cols - 1) * bbw))
  | 0, cols, hc, hcols, hsuffix => by
    have hcols1 : cols = 1 := by omega
    subst hcols1
    simp only [colsLoop]
    refine ⟨Nat.le_refl 1, hn, ?_, Or.inl trivial⟩
    intro c2 h1 h2
    exact hsuffix c2 (by omega) h2
  | c + 1, cols, hc, hcols, hsuffix => by
    unfold colsLoop
    dsimp only
    by_cases hP : divCeil n (c + 1) * bbh ≤ (c + 1) * bbw
    · rw [if_neg (by omega)]
      exact colsLoop_invariant n bbw bbh hn hPn c (c + 1) (by omega) (by omega)
        (fun c2 hgt hle => by
          rcases Nat.lt_or_ge c2 (c + 2) with h2 | h2
          · have hceq : c2 = c + 1 := by omega
            subst hceq
            exact hP
          · exact hsuffix c2 (by omega) hle)
    · rw [if_pos (by omega)]
      have hlt : c + 1 < n := by
        rcases Nat.lt_or_ge (c + 1) n with h | h
        · exact h
        · have hceq : c + 1 = n := by omega
          subst hceq
          exact absurd hPn hP
      have hcols2 : cols = c + 2 := by omega
      subst hcols2
      refine ⟨by omega, by omega, ?_, Or.inr (by simpa using hP)⟩
      intro c2 h1 h2
      exact hsuffix c2 (by omega) h2

/-- C4 (amended): the column search scans candidates `c` from `N` down to
`1` and stops at the first whose grid is *taller than wide*; the chosen
`C` is thus the smallest candidate of the maximal all-feasible suffix —
the smallest `c` in `[1, N]` such that every candidate from `N` down to
`c` has grid height ≤ grid width — and `C = N` when even the single-row
layout violates the test.  The row count is `ceil(N / C)`.  (For five
frames with an 8×8 cell this gives `C = 3`, `R = 2`, not `C = 5`,
`R = 1`; see the witness.) -/
theorem c4_column_search (n bbw bbh : Nat) (hn : 1 ≤ n) :
    (¬ divCeil n n * bbh ≤ n * bbw → chooseCols n bbw bbh = n) ∧
    (divCeil n n * bbh ≤ n * bbw →
      1 ≤ chooseCols n bbw bbh ∧ chooseCols n bbw bbh ≤ n ∧
      (∀ c, chooseCols n bbw bbh ≤ c → c ≤ n → divCeil n c * bbh ≤ c * bbw) ∧
      (chooseCols n bbw bbh = 1 ∨
        ¬ (divCeil n (chooseCols n bbw bbh - 1) * bbh ≤
          (chooseCols n bbw bbh - 1) * bbw))) := by
  constructor
  · intro hnP
    obtain ⟨m, rfl⟩ : ∃ m, n = m + 1 := ⟨n - 1, by omega⟩
    unfold chooseCols colsLoop
    dsimp only
    rw [if_pos (by omega)]
  · intro hP
    exact colsLoop_invariant n bbw bbh hn hP n n (Nat.le_refl n)
      (by omega) (fun c2 h1 h2 => by omega)

/-- C4 counterexample: five frames that all crop to the same 8×8 opaque
bounding box are packed with `columns = 3` (and `rows = ceil(5/3) = 2`),
not `columns = 5`, `rows = 1` as claimed: the loop does not stop at the
first candidate with height ≤ width (that would already be `c = 5`); it
keeps scanning and lands on the smallest feasible candidate, 3. -/
theorem c4_counterexample :
    (∀ p ∈ crop_images exFivePF, p.image.width = 8 ∧ p.image.height = 8) ∧
    (save_to_core exFivePF []).map (fun art => art.info.columns) = some 3 ∧
    (save_to_core exFivePF []).map (fun art => art.info.columns) ≠ some 5 ∧
    (save_to_core exFivePF []).map
      (fun art => divCeil art.info.frame_count art.info.columns) = some 2 := by
  refine ⟨by decide, by decide, by decide, by decide⟩

/-- C4 witness: the amended characterization evaluated at `N = 5` with an
8×8 cell, alongside the concrete value `chooseCols 5 8 8 = 3`. -/
theorem c4_column_search_witness :
    (1 : Nat) ≤ 5 ∧ divCeil 5 5 * 8 ≤ 5 * 8 ∧ chooseCols 5 8 8 = 3 ∧
    (1 ≤ chooseCols 5 8 8 ∧ chooseCols 5 8 8 ≤ 5 ∧
      (∀ c, chooseCols 5 8 8 ≤ c → c ≤ 5 → divCeil 5 c * 8 ≤ c * 8) ∧
      (chooseCols 5 8 8 = 1 ∨
        ¬ (divCeil 5 (chooseCols 5 8 8 - 1) * 8 ≤ (chooseCols 5 8 8 - 1) * 8))) :=
  ⟨by decide, by decide, by decide, (c4_column_search 5 8 8 (by decide)).2 (by decide)⟩

/-- `mapOption` succeeds pointwise. -/
theorem mapOption_of_forall {α β : Type} (f : α → Option β) (g : α → β) :
    ∀ xs : List α, (∀ x ∈ xs, f x = some (g x)) → mapOption f xs = some (xs.map g)
  | [], _ => rfl
  | x :: xs, h => by
    have hx := h x (by simp)
    have hxs := mapOption_of_forall f g xs (fun y hy => h y (by simp [hy]))
    simp [mapOption, hx, hxs]

/-- The crop and pad phases keep the frame count. -/
theorem finalFrames_length (F : List PFrame) : (finalFrames F).length = F.length := by
  simp [finalFrames, pad_images, crop_images]

/-- Every padded frame is exactly cell-sized. -/
theorem finalFrames_dims (F : List PFrame) (k : Nat) (p : PFrame)
    (hp : (finalFrames F)[k]? = some p) :
    p.image.width = bbWidth (crop_images F) ∧
      p.image.height = bbHeight (crop_images F) := by
  unfold finalFrames pad_images at hp
  rw [List.getElem?_map] at hp
  cases hq : (crop_images F)[k]? with
  | none => rw [hq] at hp; exact absurd hp (by simp)
  | some q =>
    rw [hq] at hp
    injection hp with hp2
    subst hp2
    exact ⟨rfl, rfl⟩

/-- The crop and pad phases touch only the image and the anchor offset:
delay, root motion and hitbox instances pass through untouched. -/
theorem finalFrames_metadata (F : List PFrame) (k : Nat) (orig : PFrame)
    (ho : F[k]? = some orig) :
    ∃ fin, (finalFrames F)[k]? = some fin ∧
      fin.delay = orig.delay ∧ fin.root_motion = orig.root_motion ∧
      fin.hitboxes = orig.hitboxes := by
  unfold finalFrames pad_images crop_images
  rw [List.getElem?_map, List.getElem?_map, ho]
  exact ⟨_, rfl, rfl, rfl, rfl⟩

/-- Cutting grid cell `k` back out of the assembled sheet returns exactly
padded frame `k`, pixel for pixel. -/
theorem decode_cell_eq (padded : List PFrame) (cols rows bbw bbh k : Nat) (p : PFrame)
    (hp : padded[k]? = some p)
    (hcols : 1 ≤ cols)
    (hrow : k / cols < rows)
    (hpw : p.image.width = bbw) (hph : p.image.height = bbh) :
    imageEq (crop_imm (sheetImage padded cols rows bbw bbh)
      ((k % cols) * bbw) ((k / cols) * bbh) bbw bbh) p.image := by
  have hmod : k % cols < cols := Nat.mod_lt k (by omega)
  have hx0 : (k % cols) * bbw ≤ cols * bbw := Nat.mul_le_mul_right bbw (by omega)
  have hy0 : (k / cols) * bbh ≤ rows * bbh := Nat.mul_le_mul_right bbh (by omega)
  have hsubw : (cols - k % cols) * bbw = cols * bbw - (k % cols) * bbw :=
    Nat.sub_mul cols (k % cols) bbw
  have honew : 1 * bbw ≤ (cols - k % cols) * bbw := Nat.mul_le_mul_right bbw (by omega)
  have hW : bbw ≤ cols * bbw - (k % cols) * bbw := by omega
  have hsubh : (rows - k / cols) * bbh = rows * bbh - (k / cols) * bbh :=
    Nat.sub_mul rows (k / cols) bbh
  have honeh : 1 * bbh ≤ (rows - k / cols) * bbh := Nat.mul_le_mul_right bbh (by omega)
  have hH : bbh ≤ rows * bbh - (k / cols) * bbh := by omega
  unfold crop_imm sheetImage imageEq
  dsimp only
  refine ⟨by rw [hpw]; omega, by rw [hph]; omega, ?_⟩
  intro x hx y hy
  have hxb : x < bbw := by omega
  have hyb : y < bbh := by omega
  have hbbw : 0 < bbw := by omega
  have hbbh : 0 < bbh := by omega
  have hminx : min ((k % cols) * bbw) (cols * bbw) = (k % cols) * bbw := by omega
  have hminy : min ((k / cols) * bbh) (rows * bbh) = (k / cols) * bbh := by omega
  rw [hminx, hminy]
  have hix : ((k % cols) * bbw + x) / bbw = k % cols := by
    rw [Nat.add_comm, Nat.add_mul_div_right x (k % cols) hbbw, Nat.div_eq_of_lt hxb]
    omega
  have hiy : ((k / cols) * bbh + y) / bbh = k / cols := by
    rw [Nat.add_comm, Nat.add_mul_div_right y (k / cols) hbbh, Nat.div_eq_of_lt hyb]
    omega
  have hxm : ((k % cols) * bbw + x) % bbw = x := by
    rw [Nat.add_comm, Nat.add_mul_mod_self_right, Nat.mod_eq_of_lt hxb]
  have hym : ((k / cols) * bbh + y) % bbh = y := by
    rw [Nat.add_comm, Nat.add_mul_mod_self_right, Nat.mod_eq_of_lt hyb]
  rw [hix, hiy, hxm, hym]
  have hk2 : k / cols * cols + k % cols = k := by
    have h1 := Nat.div_add_mod k cols
    have h2 : k / cols * cols = cols * (k / cols) := Nat.mul_comm _ _
    omega
  rw [hk2, hp]

/-- Unfolded form of a successful `save_to_core`. -/
theorem save_to_core_eq (F : List PFrame) (defs : List (Nat × Hitbox))
    (hne : ¬ (F.length = 0)) :
    save_to_core F defs = some
      { spritesheet := sheetImage (finalFrames F)
          (chooseCols F.length (bbWidth (crop_images F)) (bbHeight (crop_images F)))
          (divCeil F.length
            (chooseCols F.length (bbWidth (crop_images F)) (bbHeight (crop_images F))))
          (bbWidth (crop_images F)) (bbHeight (crop_images F))
        info :=
          { cell_width := bbWidth (crop_images F)
            cell_height := bbHeight (crop_images F)
            columns := chooseCols F.length (bbWidth (crop_images F))
              (bbHeight (crop_images F))
            frame_count := F.length
            frame_data := (finalFrames F).map
              (fun p => ⟨p.delay, p.offset, p.root_motion, p.hitboxes⟩)
            hitboxes := defs } } := by
  unfold save_to_core finalFrames
  rw [if_neg hne]

/-- C3: round-trip of the codec.  Decoding the saved artifact reproduces,
for each frame, the original delay, root-motion offset and hitbox
instance set, and an anchor offset and a bitmap that are value-for-value
and pixel-for-pixel equal to the "final" (cropped then padded) values the
encoder itself computes for that frame. -/
theorem c3_roundtrip (F : List PFrame) (defs : List (Nat × Hitbox)) (k : Nat)
    (hk : k < F.length) :
    ∃ art dl dk fin orig,
      save_to_core F defs = some art ∧
      load art = some dl ∧
      dl.1[k]? = some dk ∧
      (finalFrames F)[k]? = some fin ∧
      F[k]? = some orig ∧
      dk.delay = orig.delay ∧ dk.root_motion = orig.root_motion ∧
      dk.hitboxes = orig.hitboxes ∧
      dk.offset = fin.offset ∧
      imageEq dk.image fin.image := by
  have hne : ¬ (F.length = 0) := by omega
  obtain ⟨orig, horig⟩ : ∃ orig, F[k]? = some orig :=
    ⟨_, List.getElem?_eq_getElem hk⟩
  obtain ⟨fin, hfin, hfd, hfrm, hfhb⟩ := finalFrames_metadata F k orig horig
  have hart := save_to_core_eq F defs hne
  have hcolsb := chooseCols_bounds F.length (bbWidth (crop_images F))
    (bbHeight (crop_images F)) (by omega)
  have hlenfin : (finalFrames F).length = F.length := finalFrames_length F
  have hdims := finalFrames_dims F k fin hfin
  have hflen : ((finalFrames F).map
      (fun p => (⟨p.delay, p.offset, p.root_motion, p.hitboxes⟩ : FrameData))).length =
      F.length := by
    rw [List.length_map, hlenfin]
  have hfdk : ((finalFrames F).map
      (fun p => (⟨p.delay, p.offset, p.root_motion, p.hitboxes⟩ : FrameData)))[k]? =
      some ⟨fin.delay, fin.offset, fin.root_motion, fin.hitboxes⟩ := by
    rw [List.getElem?_map, hfin]
    rfl
  set art : AnimationFileData :=
      { spritesheet := sheetImage (finalFrames F)
          (chooseCols F.length (bbWidth (crop_images F)) (bbHeight (crop_images F)))
          (divCeil F.length
            (chooseCols F.length (bbWidth (crop_images F)) (bbHeight (crop_images F))))
          (bbWidth (crop_images F)) (bbHeight (crop_images F))
        info :=
          { cell_width := bbWidth (crop_images F)
            cell_height := bbHeight (crop_images F)
            columns := chooseCols F.length (bbWidth (crop_images F))
              (bbHeight (crop_images F))
            frame_count := F.length
            frame_data := (finalFrames F).map
              (fun p => ⟨p.delay, p.offset, p.root_motion, p.hitboxes⟩)
            hitboxes := defs } } with hartdef
  set g : Nat → PFrame := fun i =>
    { image := crop_imm art.spritesheet ((i % art.info.columns) * art.info.cell_width)
        ((i / art.info.columns) * art.info.cell_height)
        art.info.cell_width art.info.cell_height
      offset := (art.info.frame_data.getD i ⟨0, ⟨0, 0⟩, ⟨0, 0⟩, []⟩).origin
      root_motion := (art.info.frame_data.getD i ⟨0, ⟨0, 0⟩, ⟨0, 0⟩, []⟩).root_motion
      hitboxes := (art.info.frame_data.getD i ⟨0, ⟨0, 0⟩, ⟨0, 0⟩, []⟩).hitboxes
      delay := (art.info.frame_data.getD i ⟨0, ⟨0, 0⟩, ⟨0, 0⟩, []⟩).delay } with hg
  have hload : load art = some ((List.range art.info.frame_count).map g,
      art.info.hitboxes) := by
    unfold load
    rw [mapOption_of_forall (loadFrame art) g]
    · rfl
    · intro i hi
      rw [List.mem_range] at hi
      obtain ⟨fd, hfd2⟩ : ∃ fd, art.info.frame_data[i]? = some fd :=
        ⟨_, List.getElem?_eq_getElem (by
          show i < ((finalFrames F).map _).length
          rw [hflen]
          exact hi)⟩
      unfold loadFrame
      rw [hfd2]
      simp only [Option.map_some, Option.some.injEq, hg]
      rw [List.getD_eq_getElem?_getD, hfd2]
      rfl
  have hgk : g k =
      { image := crop_imm art.spritesheet ((k % art.info.columns) * art.info.cell_width)
          ((k / art.info.columns) * art.info.cell_height)
          art.info.cell_width art.info.cell_height
        offset := fin.offset
        root_motion := fin.root_motion
        hitboxes := fin.hitboxes
        delay := fin.delay } := by
    rw [hg]
    dsimp only
    rw [List.getD_eq_getElem?_getD, hfdk]
    rfl
  refine ⟨art, ((List.range art.info.frame_count).map g, art.info.hitboxes), g k, fin,
    orig, hart, hload, ?_, hfin, horig, ?_, ?_, ?_, ?_, ?_⟩
  · rw [List.getElem?_map, List.getElem?_range hk]
    rfl
  · rw [hgk, hfd]
  · rw [hgk, hfrm]
  · rw [hgk, hfhb]
  · rw [hgk]
  · rw [hgk]
    exact decode_cell_eq (finalFrames F) art.info.columns
      (divCeil F.length art.info.columns)
      art.info.cell_width art.info.cell_height k fin hfin (by exact hcolsb.1)
      (div_lt_divCeil F.length art.info.columns k (by exact hcolsb.1) hk)
      hdims.1 hdims.2

/-- C3 witness: the round-trip at a concrete two-frame input (a 3×2
image with transparent side columns plus a fully opaque 2×2 image, with
nontrivial offsets, delays and a hitbox instance). -/
theorem c3_roundtrip_witness :
    (0 : Nat) < exTwoPF.length ∧
    (∃ art dl dk fin orig,
      save_to_core exTwoPF [] = some art ∧
      load art = some dl ∧
      dl.1[0]? = some dk ∧
      (finalFrames exTwoPF)[0]? = some fin ∧
      exTwoPF[0]? = some orig ∧
      dk.delay = orig.delay ∧ dk.root_motion = orig.root_motion ∧
      dk.hitboxes = orig.hitboxes ∧
      dk.offset = fin.offset ∧
      imageEq dk.image fin.image) :=
  ⟨by decide, c3_roundtrip exTwoPF [] 0 (by decide)⟩

end AnimEditor
